import Mathlib

/-!
Verification of the Demucs waveform-denoiser architecture
(src/src/models/denoiser/demucs/demucs.py).

The development shallowly embeds the module: the constructor-time
configuration, the `valid_length` integer arithmetic, the construction of
encoder/decoder blocks with the weight-rescaling pass, and the value-level
`forward` pipeline over real-valued signals (lists of samples).
Machine floats are modelled by real numbers; the 1-D convolution,
transposed convolution, GLU and LSTM primitives of the tensor engine are
embedded by their documented semantics.
-/

/-- Constructor parameters of `Demucs.__init__` (demucs.py lines 16-30),
with the source's default values. -/
structure Cfg where
  hidden_dim : ℕ := 64
  growth : ℚ := 1
  depth : ℕ := 5
  causal : Bool := true
  resample : ℕ := 4
  rescale : ℝ := 1/10
  stride_conv : ℕ := 4
  kernel_conv : ℕ := 8
  stride_glu : ℕ := 1
  kernel_glu : ℕ := 1
  original : Bool := true
  use_bias : Bool := true
  normalize : Bool := true

/-- Ceiling division of an integer by a natural number, `⌈a / b⌉` for
`b > 0`, via Euclidean division: this models Python's
`math.ceil(a / b)` on integer operands (the float division is exact for
the magnitudes involved and `math.ceil` returns an int). -/
def cdiv (a : ℤ) (b : ℕ) : ℤ := -((-a) / (b : ℤ))

/-- One encoder conv length step of `Demucs.valid_length` (demucs.py lines
228-231): `length = math.ceil((length - kernel) / stride) + 1` followed by
`length = max(length, 1)`. -/
def encIntStep (k s : ℕ) (l : ℤ) : ℤ := max (cdiv (l - (k : ℤ)) s + 1) 1

/-- One decoder (transposed-conv) length step of `Demucs.valid_length`
(demucs.py line 236): `length = (length - 1) * stride_conv + kernel_conv`. -/
def decIntStep (k s : ℕ) (l : ℤ) : ℤ := (l - 1) * (s : ℤ) + (k : ℤ)

/-- One encoder level of `Demucs.valid_length`: the strided conv step with
`kernel_conv`/`stride_conv` followed by the gated-conv step with
`kernel_glu`/`stride_glu` (demucs.py lines 227-231). -/
def encIntLevel (cfg : Cfg) (l : ℤ) : ℤ :=
  encIntStep cfg.kernel_glu cfg.stride_glu
    (encIntStep cfg.kernel_conv cfg.stride_conv l)

/-- `Demucs.valid_length` (demucs.py lines 212-240): multiply by the
resample factor (both operands are integers, so the source's `math.ceil`
is the identity there), run `depth` encoder levels, then `depth`
transposed-conv steps, then take the ceiling of the division by the
resample factor. -/
def validLength (cfg : Cfg) (L : ℤ) : ℤ :=
  cdiv ((decIntStep cfg.kernel_conv cfg.stride_conv)^[cfg.depth]
      ((encIntLevel cfg)^[cfg.depth] (L * (cfg.resample : ℤ))))
    cfg.resample

/-- C4/C5 counterexample configuration: `kernel_glu = 2` makes the gated
step of `valid_length` shrink lengths, which the decoder pass does not
undo. -/
def cfgA : Cfg :=
  { hidden_dim := 1, growth := 1, depth := 1, causal := true, resample := 1,
    rescale := 0, stride_conv := 1, kernel_conv := 1, stride_glu := 1,
    kernel_glu := 2, original := true, use_bias := true, normalize := true }

/-!
Value-level model of the tensor pipeline.  Signals are lists of real
samples: a channel is a `List ℝ` over the time axis, an example is a list
of channels, a batch is a list of examples.  Machine floats are modelled
by real numbers.
-/

/-- Time length of a multi-channel signal (the length of the time axis,
read off the first channel; all channels of a well-formed signal have the
same length). -/
def chTime (xs : List (List ℝ)) : ℕ := (xs.headD []).length

/-- Dot product of two equally long lists. -/
noncomputable def dot (w x : List ℝ) : ℝ := (List.zipWith (· * ·) w x).sum

/-- The window of `k` samples starting at `j * s` (stride `s`). -/
def window (x : List ℝ) (j k s : ℕ) : List ℝ := (x.drop (j * s)).take k

/-- Output time length of a 1-D convolution with kernel `k` and stride `s`
on an input of length `n`: `(n - k) / s + 1` frames, and no frame at all
when the input is shorter than the kernel (torch raises in that case; the
model returns an empty time axis). -/
def convLen (k s n : ℕ) : ℕ := if n < k then 0 else (n - k) / s + 1

/-- Parameters of one `nn.Conv1d` / `nn.ConvTranspose1d` module: the
weight tensor as a nested list, the optional bias vector (absent when the
module was built with `bias=False`), and the declared geometry.  For a
convolution the weight is indexed output-channel, input-channel, tap; for
a transposed convolution it is indexed input-channel, output-channel,
tap, exactly as in torch.  `inC`/`outC` record the channel counts the
constructor was called with. -/
structure ConvP where
  weight : List (List (List ℝ))
  bias : Option (List ℝ)
  inC : ℕ
  outC : ℕ
  kernel : ℕ
  stride : ℕ
  padding : ℕ

noncomputable def biasAt (b : Option (List ℝ)) (oc : ℕ) : ℝ :=
  match b with
  | some bs => bs.getD oc 0
  | none => 0

/-- Zero-padding of every channel by `p` samples on both ends, the
semantics of the `padding` argument of `nn.Conv1d`. -/
noncomputable def padChans (p : ℕ) (xs : List (List ℝ)) : List (List ℝ) :=
  xs.map (fun c => List.replicate p 0 ++ c ++ List.replicate p 0)

/-- `nn.Conv1d`: output channel `oc` at frame `j` is the bias plus the sum
over input channels of the dot product of the kernel row with the strided
window. -/
noncomputable def conv1d (P : ConvP) (xs : List (List ℝ)) : List (List ℝ) :=
  let xp := padChans P.padding xs
  (List.range P.weight.length).map (fun oc =>
    (List.range (convLen P.kernel P.stride (chTime xp))).map (fun j =>
      biasAt P.bias oc +
        (List.zipWith (fun w c => dot w (window c j P.kernel P.stride))
          (P.weight.getD oc []) xp).sum))

/-- `nn.ConvTranspose1d` (no padding, as in the source): output length
`(n-1)*s + k`; output channel `oc` at time `t` sums `x[ic][j] * w[ic][oc][t - j*s]`
over all input positions `j` whose kernel covers `t`. -/
noncomputable def convT1d (P : ConvP) (xs : List (List ℝ)) : List (List ℝ) :=
  let n := chTime xs
  let m := if n = 0 then 0 else (n - 1) * P.stride + P.kernel
  (List.range ((P.weight.headD []).length)).map (fun oc =>
    (List.range m).map (fun t =>
      biasAt P.bias oc +
        ((List.range n).map (fun j =>
          if j * P.stride ≤ t ∧ t - j * P.stride < P.kernel then
            (List.zipWith
              (fun c wrow => c.getD j 0 * ((wrow.getD oc []).getD (t - j * P.stride) 0))
              xs P.weight).sum
          else 0)).sum))

/-- `nn.ReLU` applied elementwise. -/
noncomputable def reluC (xs : List (List ℝ)) : List (List ℝ) :=
  xs.map (fun c => c.map (fun a => max a 0))

/-- The logistic sigmoid. -/
noncomputable def sigmoid (x : ℝ) : ℝ := 1 / (1 + Real.exp (-x))

/-- `nn.GLU(dim=1)`: split the channel axis in half, gate the first half
by the sigmoid of the second half. -/
noncomputable def gluC (xs : List (List ℝ)) : List (List ℝ) :=
  List.zipWith (fun a b => List.zipWith (fun x y => x * sigmoid y) a b)
    (xs.take (xs.length / 2)) (xs.drop (xs.length / 2))

/-- One encoder block of `Demucs._build_encoder_block` (demucs.py lines
140-172): strided conv, optional ReLU, channel-doubling conv, GLU. -/
structure EncBlock where
  conv : ConvP
  useRelu : Bool
  convGlu : ConvP

noncomputable def encBlockApply (B : EncBlock) (xs : List (List ℝ)) : List (List ℝ) :=
  gluC (conv1d B.convGlu
    (if B.useRelu then reluC (conv1d B.conv xs) else conv1d B.conv xs))

/-- One decoder block of `Demucs._build_decoder_block` (demucs.py lines
174-206): channel-doubling conv, GLU, transposed conv, optional ReLU. -/
structure DecBlock where
  convGlu : ConvP
  deconv : ConvP
  useRelu : Bool

noncomputable def decBlockApply (B : DecBlock) (xs : List (List ℝ)) : List (List ℝ) :=
  let y := convT1d B.deconv (gluC (conv1d B.convGlu xs))
  if B.useRelu then reluC y else y

noncomputable def matvec (M : List (List ℝ)) (v : List ℝ) : List ℝ := M.map (fun r => dot r v)

noncomputable def vadd (a b : List ℝ) : List ℝ := List.zipWith (· + ·) a b

noncomputable def optAdd (b : Option (List ℝ)) (v : List ℝ) : List ℝ :=
  match b with
  | some bs => vadd v bs
  | none => v

/-- Parameters of one direction of one `nn.LSTM` layer: `weight_ih`,
`weight_hh` (each stacking the four gates i, f, g, o), and the optional
biases (absent when `bias=False`). -/
structure LstmLayerP where
  hidden : ℕ
  wih : List (List ℝ)
  whh : List (List ℝ)
  bih : Option (List ℝ)
  bhh : Option (List ℝ)

/-- One LSTM cell step, torch gate order i, f, g, o:
`c' = σ(f)⊙c + σ(i)⊙tanh(g)`, `h' = σ(o)⊙tanh(c')`. -/
noncomputable def lstmCell (p : LstmLayerP) (h c x : List ℝ) : List ℝ × List ℝ :=
  let g := vadd (optAdd p.bih (matvec p.wih x)) (optAdd p.bhh (matvec p.whh h))
  let gi := (g.take p.hidden).map sigmoid
  let gf := ((g.drop p.hidden).take p.hidden).map sigmoid
  let gg := ((g.drop (2 * p.hidden)).take p.hidden).map Real.tanh
  let go := ((g.drop (3 * p.hidden)).take p.hidden).map sigmoid
  let c2 := vadd (List.zipWith (· * ·) gf c) (List.zipWith (· * ·) gi gg)
  (List.zipWith (fun o cc => o * Real.tanh cc) go c2, c2)

/-- Run one LSTM direction over a time-major list of input vectors,
threading hidden and cell state. -/
noncomputable def lstmRun (p : LstmLayerP) (h c : List ℝ) :
    List (List ℝ) → List (List ℝ)
  | [] => []
  | x :: xs =>
      let hc := lstmCell p h c x
      hc.1 :: lstmRun p hc.1 hc.2 xs

/-- Forward direction of an LSTM layer, zero initial states (torch's
default when no initial state is passed). -/
noncomputable def lstmLayerF (p : LstmLayerP) (xs : List (List ℝ)) : List (List ℝ) :=
  lstmRun p (List.replicate p.hidden 0) (List.replicate p.hidden 0) xs

/-- Reverse direction of a bidirectional LSTM layer. -/
noncomputable def lstmLayerB (p : LstmLayerP) (xs : List (List ℝ)) : List (List ℝ) :=
  (lstmLayerF p xs.reverse).reverse

/-- A stacked `nn.LSTM`: one forward parameter set per layer, plus a
reverse-direction set exactly when the LSTM is bidirectional. -/
structure RnnP where
  layers : List (LstmLayerP × Option LstmLayerP)

/-- Stacked (optionally bidirectional) LSTM on a time-major sequence:
each layer consumes the previous layer's per-step outputs; a
bidirectional layer concatenates forward and backward features. -/
noncomputable def rnnApply (R : RnnP) (xs : List (List ℝ)) : List (List ℝ) :=
  R.layers.foldl
    (fun ys pl =>
      match pl.2 with
      | none => lstmLayerF pl.1 ys
      | some pb => List.zipWith (· ++ ·) (lstmLayerF pl.1 ys) (lstmLayerB pb ys))
    xs

/-- Parameters of the `nn.Linear` projection. -/
structure LinP where
  weight : List (List ℝ)
  bias : Option (List ℝ)

/-- The bottleneck projection: `nn.Linear` when present, `nn.Identity`
(the `causal=True` construction) when absent. -/
noncomputable def linApply (l : Option LinP) (v : List ℝ) : List ℝ :=
  match l with
  | none => v
  | some P => optAdd P.bias (matvec P.weight v)

/-- `permute(2, 0, 1)` of one example: the time-major list of
channel-value vectors. -/
noncomputable def tslices (xs : List (List ℝ)) : List (List ℝ) :=
  (List.range (chTime xs)).map (fun t => xs.map (fun c => c.getD t 0))

/-- `permute(1, 2, 0)` back to channel-major layout, with `C` feature
channels. -/
noncomputable def fromTslices (C : ℕ) (hs : List (List ℝ)) : List (List ℝ) :=
  (List.range C).map (fun ch => hs.map (fun h => h.getD ch 0))

/-- `Demucs.bottleneck` (demucs.py lines 279-289): reorder to time-major,
run the LSTM, apply the linear projection (identity when causal), reorder
back.  `C` is the feature width of the result (the LSTM hidden size, or
the linear projection's output width). -/
noncomputable def bottleneckApply (C : ℕ) (R : RnnP) (l : Option LinP)
    (xs : List (List ℝ)) : List (List ℝ) :=
  fromTslices C ((rnnApply R (tslices xs)).map (linApply l))

/-- Modelled from the spec: `upsample2` lives in
src/models/denoiser/demucs/resample.py, which is not under src/.  The
spec's contract (section 4.2) fixes the length exactly — output time
length `2·n`, batch and channel axes untouched — and leaves the
interpolation kernel a black box; the model realises it as sample
duplication, which the claims only probe through the length contract. -/
noncomputable def upsample2 (xs : List (List ℝ)) : List (List ℝ) :=
  xs.map (fun c => (List.range (2 * c.length)).map (fun j => c.getD (j / 2) 0))

/-- Modelled from the spec: `downsample2` (resample.py, not under src/).
The spec's contract gives time length `n / 2` for even `n`; the model
keeps the even-indexed samples, `⌈n / 2⌉` frames in general. -/
noncomputable def downsample2 (xs : List (List ℝ)) : List (List ℝ) :=
  xs.map (fun c => (List.range ((c.length + 1) / 2)).map (fun j => c.getD (2 * j) 0))

/-- The upsampling stage of `forward` (demucs.py lines 313-318): one
2× stage for `resample = 2`, two cascaded stages for `resample = 4`,
nothing otherwise. -/
noncomputable def resampleUp (r : ℕ) (xs : List (List ℝ)) : List (List ℝ) :=
  if r = 2 then upsample2 xs
  else if r = 4 then upsample2 (upsample2 xs) else xs

/-- The downsampling stage of `forward` (demucs.py lines 335-340). -/
noncomputable def resampleDown (r : ℕ) (xs : List (List ℝ)) : List (List ℝ) :=
  if r = 2 then downsample2 xs
  else if r = 4 then downsample2 (downsample2 xs) else xs

/-- Sum of a non-empty family of channels (used by the mono mixdown). -/
noncomputable def vsum : List (List ℝ) → List ℝ
  | [] => []
  | [c] => c
  | c :: c' :: cs => vadd c (vsum (c' :: cs))

/-- `x.mean(dim=1, keepdim=True)`: average the channels into a single
channel (demucs.py line 300). -/
noncomputable def mixdown (xs : List (List ℝ)) : List (List ℝ) :=
  [(vsum xs).map (fun a => a / (xs.length : ℝ))]

/-- `x.std(dim=-1)`: the unbiased standard deviation of a channel, as
torch computes it (denominator `n - 1`). -/
noncomputable def stdDev (v : List ℝ) : ℝ :=
  let m := v.sum / (v.length : ℝ)
  Real.sqrt ((v.map (fun a => (a - m) ^ 2)).sum / ((v.length : ℝ) - 1))

/-- `F.pad(x, (0, t - len))` on one channel: append zeros up to the
target length `t`, or truncate when the target is shorter (torch's
semantics of a negative pad amount). -/
noncomputable def padTo (t : ℤ) (c : List ℝ) : List ℝ :=
  if (c.length : ℤ) ≤ t then c ++ List.replicate (t - (c.length : ℤ)).toNat 0
  else c.take t.toNat

/-- The encoder loop of `forward` (demucs.py lines 320-324): apply every
encoder block in order, collecting each output as a skip (in push
order). -/
noncomputable def encodeLoop : List EncBlock → List (List ℝ) →
    List (List (List ℝ)) × List (List ℝ)
  | [], x => ([], x)
  | B :: Bs, x =>
      let y := encBlockApply B x
      let r := encodeLoop Bs y
      (y :: r.1, r.2)

/-- `x + skip[..., :x.shape[-1]]` (demucs.py line 332): the skip's time
axis is first truncated to the current tensor's time length. -/
noncomputable def addTrim (x sk : List (List ℝ)) : List (List ℝ) :=
  List.zipWith (fun xc skc => List.zipWith (· + ·) xc (skc.take (chTime x))) x sk

/-- The decoder loop of `forward` (demucs.py lines 330-333): pop the most
recent skip (the skips are supplied most-recent-first), add it after
trimming, and apply the decoder block. -/
noncomputable def decodeLoop : List DecBlock → List (List (List ℝ)) →
    List (List ℝ) → List (List ℝ)
  | [], _, x => x
  | B :: Bs, skips, x =>
      decodeLoop Bs skips.tail (decBlockApply B (addTrim x (skips.headD [])))

/-- Time lengths compared by each decoder iteration: the current tensor's
time length paired with the popped skip's time length, in loop order
(a replay of `decodeLoop` recording what line 332's slice compares). -/
noncomputable def decodePairs : List DecBlock → List (List (List ℝ)) →
    List (List ℝ) → List (ℕ × ℕ)
  | [], _, _ => []
  | B :: Bs, skips, x =>
      (chTime x, chTime (skips.headD [])) ::
        decodePairs Bs skips.tail (decBlockApply B (addTrim x (skips.headD [])))

/-- Truncation toward zero, Python's `int(...)` on a (here exact,
rational) float value. -/
def pyInt (q : ℚ) : ℤ := if 0 ≤ q then ⌊q⌋ else -⌊-q⌋

/-- Channel count `int(hidden_dim * growth * 2**level)` used by the block
builders (demucs.py lines 151-152 and 185-186), clamped to ℕ. -/
def natCh (cfg : Cfg) (level : ℕ) : ℕ :=
  (pyInt ((cfg.hidden_dim : ℚ) * cfg.growth * (2 : ℚ) ^ level)).toNat

/-- `encoder_channels = int(growth * hidden_dim * (2 ** (depth - 1)))`
(demucs.py line 107); the exponent is an integer that Python lets go
negative when `depth = 0`. -/
def encCh (cfg : Cfg) : ℕ :=
  (pyInt (cfg.growth * (cfg.hidden_dim : ℚ) * (2 : ℚ) ^ ((cfg.depth : ℤ) - 1))).toNat

/-- The whole model: configuration plus the constructed blocks. -/
structure DemucsM where
  cfg : Cfg
  encoder : List EncBlock
  decoder : List DecBlock
  rnn : RnnP
  lin : Option LinP

/-- The per-example scalar remembered by `forward`'s normalization
(demucs.py lines 303-307): the channel's standard deviation when
`normalize` is set, else the literal 1. -/
noncomputable def normStd (cfg : Cfg) (ex : List (List ℝ)) : ℝ :=
  if cfg.normalize then stdDev (ex.headD []) else 1

/-- The normalization of the mixed-down signal (demucs.py lines 303-305):
each channel is divided by `1e-3` plus its own standard deviation. -/
noncomputable def normSig (cfg : Cfg) (ex : List (List ℝ)) : List (List ℝ) :=
  if cfg.normalize then
    ex.map (fun c => c.map (fun a => a / (1 / 1000 + stdDev c)))
  else ex

/-- The prefix of `Demucs.forward` before the encoder (demucs.py lines
293-318): mixdown, normalization, zero-pad to the valid length,
upsample. -/
noncomputable def forwardPrep (M : DemucsM) (ex0 : List (List ℝ)) : List (List ℝ) :=
  resampleUp M.cfg.resample
    ((normSig M.cfg (mixdown ex0)).map
      (padTo (validLength M.cfg (chTime (mixdown ex0) : ℤ))))

/-- The U-Net core of `Demucs.forward` (demucs.py lines 320-333): the
encoder loop capturing skips, the bottleneck, and the decoder loop
popping the skips most recent first. -/
noncomputable def forwardCore (M : DemucsM) (ex0 : List (List ℝ)) : List (List ℝ) :=
  decodeLoop M.decoder (encodeLoop M.encoder (forwardPrep M ex0)).1.reverse
    (bottleneckApply (encCh M.cfg) M.rnn M.lin
      (encodeLoop M.encoder (forwardPrep M ex0)).2)

/-- `Demucs.forward`, the processing of one example (demucs.py lines
291-346): the prep stages, the U-Net core, downsample, trim to the
original length, multiply by the remembered `std`. -/
noncomputable def forwardEx (M : DemucsM) (ex0 : List (List ℝ)) : List (List ℝ) :=
  (resampleDown M.cfg.resample (forwardCore M ex0)).map
    (fun c => (c.take (chTime (mixdown ex0))).map
      (fun a => normStd M.cfg (mixdown ex0) * a))

/-- `Demucs.forward` over a batch. -/
noncomputable def forward (M : DemucsM) (x : List (List (List ℝ))) :
    List (List (List ℝ)) :=
  x.map (forwardEx M)

/-- The time-length pairs compared by the decoder loop of one `forward`
call on one example (the prefix of `forwardEx` up to the decoder loop,
then `decodePairs`). -/
noncomputable def forwardPairs (M : DemucsM) (ex0 : List (List ℝ)) : List (ℕ × ℕ) :=
  decodePairs M.decoder (encodeLoop M.encoder (forwardPrep M ex0)).1.reverse
    (bottleneckApply (encCh M.cfg) M.rnn M.lin
      (encodeLoop M.encoder (forwardPrep M ex0)).2)

/-!
Construction: `Demucs.__init__` (demucs.py lines 16-124).  The tensor
engine's random initial parameter values are collaborator data, supplied
as an `InitW` bundle; the constructor assembles the blocks, applies the
one-shot weight rescaling pass when `rescale` is non-zero (Python
truthiness of the float), and builds the recurrent bottleneck and the
optional linear projection afterwards. -/

/-- Raw initial parameters of one LSTM layer direction. -/
structure LstmRawP where
  wih : List (List ℝ)
  whh : List (List ℝ)
  bih : List ℝ
  bhh : List ℝ

/-- Collaborator-provided initial parameter values, indexed the way the
constructor consumes them (encoder/decoder level, LSTM layer and
direction). -/
structure InitW where
  encConvW : ℕ → List (List (List ℝ))
  encConvB : ℕ → List ℝ
  encGluW : ℕ → List (List (List ℝ))
  encGluB : ℕ → List ℝ
  decGluW : ℕ → List (List (List ℝ))
  decGluB : ℕ → List ℝ
  decConvW : ℕ → List (List (List ℝ))
  decConvB : ℕ → List ℝ
  lstm : ℕ → Bool → LstmRawP
  linW : List (List ℝ)
  linB : List ℝ

/-- `Demucs._build_encoder_block` at `level = i` (demucs.py lines 140-172),
called with `use_relu = original or i` (line 81, Python truthiness of the
int level). -/
noncomputable def buildEncBlock (cfg : Cfg) (iw : InitW) (i : ℕ) : EncBlock :=
  { conv := { weight := iw.encConvW i
              bias := if cfg.use_bias then some (iw.encConvB i) else none
              inC := if i = 0 then 1 else natCh cfg (i - 1)
              outC := natCh cfg i
              kernel := cfg.kernel_conv, stride := cfg.stride_conv, padding := 0 }
    useRelu := cfg.original || decide (0 < i)
    convGlu := { weight := iw.encGluW i
                 bias := if cfg.use_bias then some (iw.encGluB i) else none
                 inC := natCh cfg i
                 outC := 2 * natCh cfg i
                 kernel := cfg.kernel_glu, stride := cfg.stride_glu
                 padding := cfg.kernel_glu / 2 } }

/-- `Demucs._build_decoder_block` at `level` (demucs.py lines 174-206),
called with `use_relu = level > 0` (line 94: the activation is omitted
from the final decoder block). -/
noncomputable def buildDecBlock (cfg : Cfg) (iw : InitW) (level : ℕ) : DecBlock :=
  { convGlu := { weight := iw.decGluW level
                 bias := if cfg.use_bias then some (iw.decGluB level) else none
                 inC := natCh cfg level
                 outC := 2 * natCh cfg level
                 kernel := cfg.kernel_glu, stride := cfg.stride_glu
                 padding := cfg.kernel_glu / 2 }
    deconv := { weight := iw.decConvW level
                bias := if cfg.use_bias then some (iw.decConvB level) else none
                inC := natCh cfg level
                outC := if level = 0 then 1 else natCh cfg (level - 1)
                kernel := cfg.kernel_conv, stride := cfg.stride_conv, padding := 0 }
    useRelu := decide (0 < level) }

def flat2 {α : Type} (v : List (List α)) : List α := v.foldr (· ++ ·) []

def flat3 {α : Type} (w : List (List (List α))) : List α := flat2 (w.map flat2)

/-- `module.weight.std()` over all entries of a weight tensor. -/
noncomputable def tensorStd (w : List (List (List ℝ))) : ℝ := stdDev (flat3 w)

/-- The body of `Demucs._rescale_conv` for one matched module (demucs.py
lines 131-138): `scale = (W.std() / reference) ** 0.5`, then the weight
and the bias (when present) are divided by `scale` in place. -/
noncomputable def rescaleConvP (ref : ℝ) (P : ConvP) : ConvP :=
  { P with
    weight := P.weight.map (fun r => r.map (fun v => v.map
      (fun a => a / Real.sqrt (tensorStd P.weight / ref))))
    bias := P.bias.map (fun b => b.map
      (fun a => a / Real.sqrt (tensorStd P.weight / ref))) }

/-- `Demucs._rescale_conv` restricted to one encoder block: the traversal
of `self.modules()` matches exactly the `nn.Conv1d` layers of the block
(the plain conv and the gated conv). -/
noncomputable def rescaleEncBlock (ref : ℝ) (B : EncBlock) : EncBlock :=
  { B with conv := rescaleConvP ref B.conv, convGlu := rescaleConvP ref B.convGlu }

/-- `Demucs._rescale_conv` restricted to one decoder block: the gated
`nn.Conv1d` and the `nn.ConvTranspose1d`. -/
noncomputable def rescaleDecBlock (ref : ℝ) (B : DecBlock) : DecBlock :=
  { B with convGlu := rescaleConvP ref B.convGlu, deconv := rescaleConvP ref B.deconv }

/-- One direction of one layer of the bottleneck `nn.LSTM` (demucs.py
lines 108-114): hidden size `encoder_channels`, biases present iff
`use_bias`. -/
noncomputable def mkLstmLayer (cfg : Cfg) (p : LstmRawP) : LstmLayerP :=
  { hidden := encCh cfg
    wih := p.wih, whh := p.whh
    bih := if cfg.use_bias then some p.bih else none
    bhh := if cfg.use_bias then some p.bhh else none }

/-- The model assembled by `Demucs.__init__` once the resample assertion
has passed: `depth` encoder blocks (levels 0..depth-1), `depth` decoder
blocks built at levels `depth-i-1` (so stored deepest first), the
rescaling pass applied to the conv blocks when `rescale` is non-zero
(lines 102-104, before the LSTM and linear exist, and filtered by
`isinstance` to the conv modules), the 2-layer LSTM (bidirectional iff
not causal), and the linear projection only in the non-causal case
(lines 116-124). -/
noncomputable def demucsBuild (cfg : Cfg) (iw : InitW) : DemucsM :=
  { cfg := cfg
    encoder :=
      if cfg.rescale ≠ 0 then
        ((List.range cfg.depth).map (buildEncBlock cfg iw)).map
          (rescaleEncBlock cfg.rescale)
      else (List.range cfg.depth).map (buildEncBlock cfg iw)
    decoder :=
      if cfg.rescale ≠ 0 then
        ((List.range cfg.depth).map
            (fun i => buildDecBlock cfg iw (cfg.depth - i - 1))).map
          (rescaleDecBlock cfg.rescale)
      else (List.range cfg.depth).map (fun i => buildDecBlock cfg iw (cfg.depth - i - 1))
    rnn := { layers :=
      [(mkLstmLayer cfg (iw.lstm 0 false),
          if cfg.causal then none else some (mkLstmLayer cfg (iw.lstm 0 true))),
        (mkLstmLayer cfg (iw.lstm 1 false),
          if cfg.causal then none else some (mkLstmLayer cfg (iw.lstm 1 true)))] }
    lin :=
      if cfg.causal then none
      else some { weight := iw.linW
                  bias := if cfg.use_bias then some iw.linB else none } }

/-- `Demucs.__init__`: the only validation the module itself performs is
`assert resample in [1, 2, 4]` (demucs.py line 65); when it passes, the
model is assembled. -/
noncomputable def demucsInit (cfg : Cfg) (iw : InitW) : Option DemucsM :=
  if cfg.resample = 1 ∨ cfg.resample = 2 ∨ cfg.resample = 4 then
    some (demucsBuild cfg iw)
  else none

/-- Trivial collaborator weights, used by concrete instantiations. -/
noncomputable def iwTriv : InitW :=
  { encConvW := fun _ => [], encConvB := fun _ => []
    encGluW := fun _ => [], encGluB := fun _ => []
    decGluW := fun _ => [], decGluB := fun _ => []
    decConvW := fun _ => [], decConvB := fun _ => []
    lstm := fun _ _ => ⟨[], [], [], []⟩
    linW := [], linB := [] }

/-- A configuration the claim calls invalid (`depth = 0` is non-positive)
with a legal resample factor; all other fields keep the source defaults. -/
noncomputable def cfgDepth0 : Cfg := { depth := 0 }

/-- The list of conv and transposed-conv modules of the model, in the
order `self.modules()` reaches them: the two `nn.Conv1d` of each encoder
block, then the `nn.Conv1d` and `nn.ConvTranspose1d` of each decoder
block. -/
def convModules (M : DemucsM) : List ConvP :=
  flat2 (M.encoder.map (fun B => [B.conv, B.convGlu])) ++
    flat2 (M.decoder.map (fun B => [B.convGlu, B.deconv]))

/-- Witness configuration for the construction claims: depth 1, unit
channel sizes, rescaling reference 1. -/
def cfgW8 : Cfg :=
  { hidden_dim := 1, growth := 1, depth := 1, causal := true, resample := 1,
    rescale := 1, stride_conv := 1, kernel_conv := 1, stride_glu := 1,
    kernel_glu := 1, original := true, use_bias := true, normalize := false }

/-!
Shape propagation.  `HasShape xs c n` says the signal has `c` channels,
each of time length `n`. -/

def HasShape (xs : List (List ℝ)) (c n : ℕ) : Prop :=
  xs.length = c ∧ ∀ ch ∈ xs, ch.length = n

/-- Input channel count of encoder level `i` (demucs.py line 151). -/
def encInC (cfg : Cfg) (i : ℕ) : ℕ := if i = 0 then 1 else natCh cfg (i - 1)

/-- Output channel count of decoder level `level` (demucs.py line 186). -/
def decOutC (cfg : Cfg) (level : ℕ) : ℕ :=
  if level = 0 then 1 else natCh cfg (level - 1)

/-- Time length through the strided encoder conv. -/
def encConvTime (cfg : Cfg) (t : ℕ) : ℕ := convLen cfg.kernel_conv cfg.stride_conv t

/-- Time length through a gated conv (padding `kernel_glu / 2`). -/
def gluTime (cfg : Cfg) (t : ℕ) : ℕ :=
  convLen cfg.kernel_glu cfg.stride_glu (t + 2 * (cfg.kernel_glu / 2))

/-- Time length through one encoder block. -/
def encTimeStep (cfg : Cfg) (t : ℕ) : ℕ := gluTime cfg (encConvTime cfg t)

/-- Output time length of a transposed conv (0 frames in, 0 frames out). -/
def tlenT (k s n : ℕ) : ℕ := if n = 0 then 0 else (n - 1) * s + k

/-- Time length through one decoder block. -/
def decTimeStep (cfg : Cfg) (t : ℕ) : ℕ :=
  tlenT cfg.kernel_conv cfg.stride_conv (gluTime cfg t)

/-- The geometry an encoder block of the constructed model has at level
`i`: the conv parameters the constructor passed, and weight tensors whose
leading dimension is the declared output channel count. -/
def EncBlockSpec (cfg : Cfg) (i : ℕ) (B : EncBlock) : Prop :=
  B.conv.weight.length = natCh cfg i ∧ B.conv.kernel = cfg.kernel_conv ∧
  B.conv.stride = cfg.stride_conv ∧ B.conv.padding = 0 ∧
  B.convGlu.weight.length = 2 * natCh cfg i ∧ B.convGlu.kernel = cfg.kernel_glu ∧
  B.convGlu.stride = cfg.stride_glu ∧ B.convGlu.padding = cfg.kernel_glu / 2

/-- The geometry a decoder block of the constructed model has at level
`level`; the transposed conv's weight rows carry the output channels. -/
def DecBlockSpec (cfg : Cfg) (level : ℕ) (B : DecBlock) : Prop :=
  B.convGlu.weight.length = 2 * natCh cfg level ∧ B.convGlu.kernel = cfg.kernel_glu ∧
  B.convGlu.stride = cfg.stride_glu ∧ B.convGlu.padding = cfg.kernel_glu / 2 ∧
  B.deconv.weight.length = natCh cfg level ∧ B.deconv.weight ≠ [] ∧
  (∀ r ∈ B.deconv.weight, r.length = decOutC cfg level) ∧
  B.deconv.kernel = cfg.kernel_conv ∧ B.deconv.stride = cfg.stride_conv

/-- Shapes of the collaborator-supplied initial weights, as the tensor
engine guarantees them for the constructor's channel and kernel
arguments. -/
def WfIW (cfg : Cfg) (iw : InitW) : Prop :=
  ∀ i, i < cfg.depth →
    (iw.encConvW i).length = natCh cfg i ∧
    (iw.encGluW i).length = 2 * natCh cfg i ∧
    (iw.decGluW i).length = 2 * natCh cfg i ∧
    (iw.decConvW i).length = natCh cfg i ∧
    (∀ r ∈ iw.decConvW i, r.length = decOutC cfg i)

/-- Collaborator weights with the shapes the depth-1, one-channel
configurations declare (all values zero). -/
noncomputable def iwW1 : InitW :=
  { encConvW := fun _ => [[[0]]], encConvB := fun _ => [0]
    encGluW := fun _ => [[[0]], [[0]]], encGluB := fun _ => [0, 0]
    decGluW := fun _ => [[[0]], [[0]]], decGluB := fun _ => [0, 0]
    decConvW := fun _ => [[[0]]], decConvB := fun _ => [0]
    lstm := fun _ _ => ⟨[], [], [], []⟩
    linW := [], linB := [] }

/-- C1 counterexample configuration: `stride_glu = 2` shrinks the gated
stage, which `valid_length` does not model, so the forward pass comes up
short. -/
def cfgC1 : Cfg :=
  { hidden_dim := 1, growth := 1, depth := 1, causal := true, resample := 1,
    rescale := 0, stride_conv := 1, kernel_conv := 1, stride_glu := 2,
    kernel_glu := 1, original := true, use_bias := true, normalize := false }

/-- C6 counterexample configuration: `kernel_glu = 2` (even), depth 2,
everything else the minimal 1, so each gated stage's `kernel_glu // 2 = 1`
padding lengthens its input. -/
def cfgC6 : Cfg :=
  { hidden_dim := 1, growth := 1, depth := 2, causal := true, resample := 1,
    rescale := 0, stride_conv := 1, kernel_conv := 1, stride_glu := 1,
    kernel_glu := 2, original := true, use_bias := true, normalize := false }

/-- Collaborator weights with the shapes the `cfgC6` pyramid declares
(channels 1 at level 0 and 2 at level 1; all values zero). -/
noncomputable def iwC6 : InitW :=
  { encConvW := fun i => if i = 0 then [[[0]]] else [[[0]], [[0]]]
    encConvB := fun _ => [0, 0]
    encGluW := fun i => if i = 0 then [[[0]], [[0]]] else [[[0]], [[0]], [[0]], [[0]]]
    encGluB := fun _ => [0, 0, 0, 0]
    decGluW := fun i => if i = 0 then [[[0]], [[0]]] else [[[0]], [[0]], [[0]], [[0]]]
    decGluB := fun _ => [0, 0, 0, 0]
    decConvW := fun i => if i = 0 then [[[0]]] else [[[0]], [[0]]]
    decConvB := fun _ => [0, 0]
    lstm := fun _ _ => ⟨[], [], [], []⟩
    linW := [], linB := [] }

/-- The intermediate tensors of the `cfgC6` forward run on the length-1
signal `[[0]]`: the prepped input, the two encoder outputs (the skips),
the bottleneck output and the first decoder block's output. -/
noncomputable def prepC6 : List (List ℝ) :=
  forwardPrep (demucsBuild cfgC6 iwC6) [[(0 : ℝ)]]

/-- First encoder output (the first pushed skip) of the `cfgC6` run. -/
noncomputable def y0C6 : List (List ℝ) :=
  encBlockApply (buildEncBlock cfgC6 iwC6 0) prepC6

/-- Second encoder output (the last pushed skip) of the `cfgC6` run. -/
noncomputable def y1C6 : List (List ℝ) :=
  encBlockApply (buildEncBlock cfgC6 iwC6 1) y0C6

/-- Bottleneck output of the `cfgC6` run. -/
noncomputable def botC6 : List (List ℝ) :=
  bottleneckApply (encCh cfgC6) (demucsBuild cfgC6 iwC6).rnn
    (demucsBuild cfgC6 iwC6).lin y1C6

/-- First decoder block's output of the `cfgC6` run. -/
noncomputable def x1C6 : List (List ℝ) :=
  decBlockApply (buildDecBlock cfgC6 iwC6 1) (addTrim botC6 y1C6)

/-- C2 counterexample configuration: `causal = true`, depth 1,
`kernel_conv = 2` with stride 1, no resampling, no rescaling, no
normalization, no initial ReLU. -/
def cfg2 : Cfg :=
  { hidden_dim := 1, growth := 1, depth := 1, causal := true, resample := 1,
    rescale := 0, stride_conv := 1, kernel_conv := 2, stride_glu := 1,
    kernel_glu := 1, original := false, use_bias := true, normalize := false }

/-- Collaborator weights for `cfg2`: the encoder conv kernel `[0, 1]`
reads the sample one step ahead; the gated convs pass their input through
the value half and zero the gate half; the transposed conv kernel
`[1, 0]`; the LSTM weights and all biases are zero. -/
noncomputable def iw2 : InitW :=
  { encConvW := fun _ => [[[0, 1]]], encConvB := fun _ => [0]
    encGluW := fun _ => [[[1]], [[0]]], encGluB := fun _ => [0, 0]
    decGluW := fun _ => [[[1]], [[0]]], decGluB := fun _ => [0, 0]
    decConvW := fun _ => [[[1, 0]]], decConvB := fun _ => [0]
    lstm := fun _ _ => ⟨[[0], [0], [0], [0]], [[0], [0], [0], [0]],
      [0, 0, 0, 0], [0, 0, 0, 0]⟩
    linW := [], linB := [] }

/-- The zero-weight hidden-size-1 LSTM layer `cfg2` builds. -/
noncomputable def lstmZ : LstmLayerP :=
  { hidden := 1, wih := [[0], [0], [0], [0]], whh := [[0], [0], [0], [0]],
    bih := some [0, 0, 0, 0], bhh := some [0, 0, 0, 0] }

/-!
C7: positive homogeneity of `forward` under `normalize=true`.  The exact
property holds for the normalization the spec describes ("normalization
divides out scale and the final multiply restores it"); the code's
`1e-3 + std` guard (demucs.py line 305) breaks it exactly, beyond any
floating-point tolerance, as the counterexample shows.
-/

/-- The U-Net core (encoder loop, bottleneck, decoder loop) as a function
of the prepared input. -/
noncomputable def unetCore (M : DemucsM) (x : List (List ℝ)) : List (List ℝ) :=
  decodeLoop M.decoder (encodeLoop M.encoder x).1.reverse
    (bottleneckApply (encCh M.cfg) M.rnn M.lin (encodeLoop M.encoder x).2)

/-- Modelled from the spec: `forward` with the normalization the spec
describes — "normalization divides out the input scale and the final
multiply restores it" — i.e. division by the standard deviation itself
and multiplication back by that same standard deviation, without the
code's `1e-3` additive guard.  Everything else (mixdown, padding,
resampling, the U-Net core) is the source's. -/
noncomputable def forwardExSpecNorm (M : DemucsM) (ex0 : List (List ℝ)) :
    List (List ℝ) :=
  (resampleDown M.cfg.resample (unetCore M (resampleUp M.cfg.resample
    (((mixdown ex0).map (fun c => c.map (fun a => a / stdDev c))).map
      (padTo (validLength M.cfg (chTime (mixdown ex0) : ℤ))))))).map
    (fun c => (c.take (chTime (mixdown ex0))).map
      (fun a => stdDev ((mixdown ex0).headD []) * a))

/-- C7 counterexample configuration: `cfg2` with `normalize = true`. -/
def cfg7 : Cfg := { cfg2 with normalize := true }

lemma cdiv_exact (n : ℤ) (b : ℕ) (hb : 1 ≤ b) : cdiv (n * (b : ℤ)) b = n := by
  have hb0 : ((b : ℤ)) ≠ 0 := by
    have : 0 < b := by omega
    exact_mod_cast this.ne'
  unfold cdiv
  rw [show -(n * (b : ℤ)) = (-n) * (b : ℤ) by ring,
    Int.mul_ediv_cancel _ hb0, neg_neg]

lemma cdiv_mono (b : ℕ) (hb : 1 ≤ b) {a a' : ℤ} (h : a ≤ a') :
    cdiv a b ≤ cdiv a' b := by
  have hb0 : (0 : ℤ) < (b : ℤ) := by exact_mod_cast (by omega : 0 < b)
  unfold cdiv
  exact neg_le_neg (Int.ediv_le_ediv hb0 (neg_le_neg h))

lemma le_cdiv_mul (a : ℤ) (b : ℕ) (hb : 1 ≤ b) : a ≤ cdiv a b * (b : ℤ) := by
  have hb0 : ((b : ℤ)) ≠ 0 := by
    have : 0 < b := by omega
    exact_mod_cast this.ne'
  have h := Int.ediv_mul_le (-a) hb0
  unfold cdiv
  have : -((-a) / (b : ℤ)) * (b : ℤ) = -(((-a) / (b : ℤ)) * (b : ℤ)) := by ring
  omega

lemma encIntStep_of_dec (k s : ℕ) (hs : 1 ≤ s) (x : ℤ) (hx : 1 ≤ x) :
    encIntStep k s (decIntStep k s x) = x := by
  unfold encIntStep decIntStep
  rw [show (x - 1) * (s : ℤ) + (k : ℤ) - (k : ℤ) = (x - 1) * (s : ℤ) by ring,
    cdiv_exact (x - 1) s hs]
  omega

lemma encIntStep_pos (k s : ℕ) (l : ℤ) : 1 ≤ encIntStep k s l :=
  le_max_right _ _

lemma encIntStep_one_one (l : ℤ) : encIntStep 1 1 l = max l 1 := by
  unfold encIntStep
  rw [show l - ((1 : ℕ) : ℤ) = (l - 1) * ((1 : ℕ) : ℤ) by push_cast; ring,
    cdiv_exact (l - 1) 1 le_rfl]
  omega

lemma encIntLevel_pos (cfg : Cfg) (l : ℤ) : 1 ≤ encIntLevel cfg l :=
  encIntStep_pos _ _ _

lemma decIntStep_pos (k s : ℕ) (hk : 1 ≤ k) (x : ℤ) (hx : 1 ≤ x) :
    1 ≤ decIntStep k s x := by
  unfold decIntStep
  have h1 : (0 : ℤ) ≤ (x - 1) * (s : ℤ) :=
    mul_nonneg (by omega) (by positivity)
  have h2 : (1 : ℤ) ≤ (k : ℤ) := by exact_mod_cast hk
  omega

lemma decIntStep_iter_pos (k s : ℕ) (hk : 1 ≤ k) (n : ℕ) (x : ℤ) (hx : 1 ≤ x) :
    1 ≤ (decIntStep k s)^[n] x := by
  induction n generalizing x with
  | zero => simpa using hx
  | succ n ih =>
      rw [Function.iterate_succ_apply]
      exact ih _ (decIntStep_pos k s hk x hx)

lemma dvd_decIntStep (k s r : ℕ) (hrs : r ∣ s) (hrk : r ∣ k) (x : ℤ) :
    (r : ℤ) ∣ decIntStep k s x := by
  unfold decIntStep
  exact dvd_add (Dvd.dvd.mul_left (Int.natCast_dvd_natCast.mpr hrs) _)
    (Int.natCast_dvd_natCast.mpr hrk)

lemma encIntStep_mono (k s : ℕ) (hs : 1 ≤ s) {l l' : ℤ} (h : l ≤ l') :
    encIntStep k s l ≤ encIntStep k s l' := by
  unfold encIntStep
  have := cdiv_mono s hs (sub_le_sub_right h (k : ℤ))
  omega

lemma decIntStep_mono (k s : ℕ) {l l' : ℤ} (h : l ≤ l') :
    decIntStep k s l ≤ decIntStep k s l' := by
  unfold decIntStep
  have : (l - 1) * (s : ℤ) ≤ (l' - 1) * (s : ℤ) :=
    mul_le_mul_of_nonneg_right (by omega) (by positivity)
  omega

lemma encIntLevel_mono (cfg : Cfg) (hsc : 1 ≤ cfg.stride_conv)
    (hsg : 1 ≤ cfg.stride_glu) {l l' : ℤ} (h : l ≤ l') :
    encIntLevel cfg l ≤ encIntLevel cfg l' :=
  encIntStep_mono _ _ hsg (encIntStep_mono _ _ hsc h)

lemma iterate_mono_of_mono {f : ℤ → ℤ} (hf : ∀ a b, a ≤ b → f a ≤ f b)
    (n : ℕ) {l l' : ℤ} (h : l ≤ l') : f^[n] l ≤ f^[n] l' := by
  induction n generalizing l l' with
  | zero => simpa using h
  | succ n ih =>
      rw [Function.iterate_succ_apply, Function.iterate_succ_apply]
      exact ih (hf _ _ h)

lemma le_dec_of_encIntStep (k s : ℕ) (hs : 1 ≤ s) (l : ℤ) :
    l ≤ decIntStep k s (encIntStep k s l) := by
  unfold decIntStep encIntStep
  have hle : l - (k : ℤ) ≤ cdiv (l - (k : ℤ)) s * (s : ℤ) :=
    le_cdiv_mul (l - (k : ℤ)) s hs
  have hmax : cdiv (l - (k : ℤ)) s ≤ max (cdiv (l - (k : ℤ)) s + 1) 1 - 1 := by
    omega
  have hmul : cdiv (l - (k : ℤ)) s * (s : ℤ) ≤
      (max (cdiv (l - (k : ℤ)) s + 1) 1 - 1) * (s : ℤ) :=
    mul_le_mul_of_nonneg_right hmax (by positivity)
  omega

/-- With the default gated-conv geometry (`kernel_glu = 1`, `stride_glu = 1`)
the gated step of `valid_length` is a clamp to at least 1, so an encoder
level followed by a transposed-conv step can only grow a length. -/
lemma le_dec_of_encIntLevel (cfg : Cfg) (hkg : cfg.kernel_glu = 1)
    (hsg : cfg.stride_glu = 1) (hsc : 1 ≤ cfg.stride_conv) (l : ℤ) :
    l ≤ decIntStep cfg.kernel_conv cfg.stride_conv (encIntLevel cfg l) := by
  unfold encIntLevel
  rw [hkg, hsg, encIntStep_one_one]
  calc l ≤ decIntStep cfg.kernel_conv cfg.stride_conv
        (encIntStep cfg.kernel_conv cfg.stride_conv l) :=
          le_dec_of_encIntStep _ _ hsc l
    _ ≤ _ := decIntStep_mono _ _ (le_max_left _ _)

lemma le_dec_enc_iterate (cfg : Cfg) (hkg : cfg.kernel_glu = 1)
    (hsg : cfg.stride_glu = 1) (hsc : 1 ≤ cfg.stride_conv) (n : ℕ) (l : ℤ) :
    l ≤ (decIntStep cfg.kernel_conv cfg.stride_conv)^[n]
      ((encIntLevel cfg)^[n] l) := by
  induction n generalizing l with
  | zero => simp
  | succ n ih =>
      rw [Function.iterate_succ_apply' (decIntStep cfg.kernel_conv cfg.stride_conv),
        Function.iterate_succ_apply (encIntLevel cfg)]
      calc l ≤ decIntStep cfg.kernel_conv cfg.stride_conv (encIntLevel cfg l) :=
            le_dec_of_encIntLevel cfg hkg hsg hsc l
        _ ≤ _ := decIntStep_mono _ _ (ih (encIntLevel cfg l))

lemma enc_of_dec_iterate (cfg : Cfg) (hkg : cfg.kernel_glu = 1)
    (hsg : cfg.stride_glu = 1) (hsc : 1 ≤ cfg.stride_conv)
    (hkc : 1 ≤ cfg.kernel_conv) (n : ℕ) (y : ℤ) (hy : 1 ≤ y) :
    (encIntLevel cfg)^[n] ((decIntStep cfg.kernel_conv cfg.stride_conv)^[n] y)
      = y := by
  induction n generalizing y with
  | zero => simp
  | succ n ih =>
      have hz : 1 ≤ (decIntStep cfg.kernel_conv cfg.stride_conv)^[n] y :=
        decIntStep_iter_pos _ _ hkc n y hy
      have hlevel : encIntLevel cfg
          (decIntStep cfg.kernel_conv cfg.stride_conv
            ((decIntStep cfg.kernel_conv cfg.stride_conv)^[n] y)) =
          (decIntStep cfg.kernel_conv cfg.stride_conv)^[n] y := by
        unfold encIntLevel
        rw [encIntStep_of_dec _ _ hsc _ hz, hkg, hsg, encIntStep_one_one]
        omega
      rw [Function.iterate_succ_apply' (decIntStep cfg.kernel_conv cfg.stride_conv),
        Function.iterate_succ_apply (encIntLevel cfg), hlevel, ih y hy]

lemma validLength_monotone (cfg : Cfg) (hsc : 1 ≤ cfg.stride_conv)
    (hsg : 1 ≤ cfg.stride_glu) (hr : 1 ≤ cfg.resample) {L M : ℤ} (h : L ≤ M) :
    validLength cfg L ≤ validLength cfg M := by
  unfold validLength
  apply cdiv_mono _ hr
  have h1 : L * (cfg.resample : ℤ) ≤ M * (cfg.resample : ℤ) :=
    mul_le_mul_of_nonneg_right h (by positivity)
  have h2 := iterate_mono_of_mono
    (fun a b hab => encIntLevel_mono cfg hsc hsg hab) cfg.depth h1
  exact iterate_mono_of_mono
    (fun a b hab => decIntStep_mono cfg.kernel_conv cfg.stride_conv hab)
    cfg.depth h2

lemma le_validLength (cfg : Cfg) (hkg : cfg.kernel_glu = 1)
    (hsg : cfg.stride_glu = 1) (hsc : 1 ≤ cfg.stride_conv)
    (hr : 1 ≤ cfg.resample) (L : ℤ) : L ≤ validLength cfg L := by
  unfold validLength
  have h1 := le_dec_enc_iterate cfg hkg hsg hsc cfg.depth (L * (cfg.resample : ℤ))
  calc L = cdiv (L * (cfg.resample : ℤ)) cfg.resample :=
        (cdiv_exact L cfg.resample hr).symm
    _ ≤ _ := cdiv_mono _ hr h1

/-- The two iterated passes of `valid_length` land on a multiple of the
resample factor (when the factor divides both conv parameters), and the
final ceiling division is then exact. -/
lemma validLength_fixed_core (cfg : Cfg) (hkg : cfg.kernel_glu = 1)
    (hsg : cfg.stride_glu = 1) (hsc : 1 ≤ cfg.stride_conv)
    (hkc : 1 ≤ cfg.kernel_conv) (hr : 1 ≤ cfg.resample)
    (hrs : cfg.resample ∣ cfg.stride_conv) (hrk : cfg.resample ∣ cfg.kernel_conv)
    (L : ℤ) :
    validLength cfg (validLength cfg L) = validLength cfg L := by
  rcases Nat.eq_zero_or_pos cfg.depth with hd | hd
  · unfold validLength
    rw [hd]
    simp only [Function.iterate_zero, id_eq]
    rw [cdiv_exact L cfg.resample hr, cdiv_exact _ cfg.resample hr]
  · obtain ⟨n, hdep⟩ : ∃ n, cfg.depth = n + 1 := ⟨cfg.depth - 1, by omega⟩
    set y : ℤ := (encIntLevel cfg)^[cfg.depth] (L * (cfg.resample : ℤ)) with hy
    have hy1 : 1 ≤ y := by
      rw [hy, hdep, Function.iterate_succ_apply' (encIntLevel cfg)]
      exact encIntLevel_pos cfg _
    set w : ℤ := (decIntStep cfg.kernel_conv cfg.stride_conv)^[cfg.depth] y with hw
    have hdvd : (cfg.resample : ℤ) ∣ w := by
      rw [hw, hdep, Function.iterate_succ_apply' (decIntStep cfg.kernel_conv cfg.stride_conv)]
      exact dvd_decIntStep _ _ _ hrs hrk _
    obtain ⟨c, hc⟩ := hdvd
    have hcr : c * (cfg.resample : ℤ) = w := by rw [hc]; ring
    have hV : validLength cfg L = c := by
      unfold validLength
      rw [← hy, ← hw, hc, mul_comm ((cfg.resample : ℕ) : ℤ) c,
        cdiv_exact c cfg.resample hr]
    have hEw : (encIntLevel cfg)^[cfg.depth] w = y := by
      rw [hw]
      exact enc_of_dec_iterate cfg hkg hsg hsc hkc cfg.depth y hy1
    have key : validLength cfg c = c := by
      unfold validLength
      rw [hcr, hEw, ← hw, hc, mul_comm ((cfg.resample : ℕ) : ℤ) c,
        cdiv_exact c cfg.resample hr]
    rw [hV, key]

/-- C4 counterexample: the claim quantifies over every constructible
model, but `valid_length` is only idempotent when the gated-conv step is
length-neutral: with `kernel_glu = 2` (a constructible configuration) one
has `valid_length(4) = 3` yet `valid_length(3) = 2`. -/
theorem validLength_not_idempotent_cfgA :
    validLength cfgA (validLength cfgA 4) ≠ validLength cfgA 4 := by
  decide

/-- C4 (amended): for configurations whose gated conv is length-neutral
(`kernel_glu = 1`, `stride_glu = 1`, the source defaults) and whose
resample factor divides both `stride_conv` and `kernel_conv` (true of the
defaults `stride_conv = 4`, `kernel_conv = 8` for every
`resample ∈ {1,2,4}`), `valid_length` is idempotent at every integer
length `L`. -/
theorem validLength_idempotent (cfg : Cfg) (hkg : cfg.kernel_glu = 1)
    (hsg : cfg.stride_glu = 1) (hsc : 1 ≤ cfg.stride_conv)
    (hkc : 1 ≤ cfg.kernel_conv) (hr : 1 ≤ cfg.resample)
    (hrs : cfg.resample ∣ cfg.stride_conv) (hrk : cfg.resample ∣ cfg.kernel_conv)
    (L : ℤ) :
    validLength cfg (validLength cfg L) = validLength cfg L :=
  validLength_fixed_core cfg hkg hsg hsc hkc hr hrs hrk L

/-- Witness for the amended C4 at the source's default configuration. -/
theorem validLength_idempotent_witness :
    validLength {} (validLength {} 16000) = validLength {} 16000 :=
  validLength_idempotent {} rfl rfl (by decide) (by decide) (by decide)
    (by decide) (by decide) 16000

/-- C5 counterexample: with `kernel_glu = 2` (configuration `cfgA`),
`valid_length(3) = 2 < 3`, so it is not the least fixed point of the
analytic length propagation at or above the input length. -/
theorem validLength_not_least_cfgA :
    ¬ IsLeast {M : ℤ | 3 ≤ M ∧ validLength cfgA M = M} (validLength cfgA 3) := by
  intro h
  have h1 : (3 : ℤ) ≤ validLength cfgA 3 := h.1.1
  have h2 : validLength cfgA 3 = 2 := by decide
  omega

/-- C5 (amended): under the same conditions as the amended C4, for every
positive length `L` the value `valid_length(L)` is the least integer that
is at least `L` and is a fixed point of the analytic length propagation
(`valid_length` itself). -/
theorem validLength_isLeast (cfg : Cfg) (hkg : cfg.kernel_glu = 1)
    (hsg : cfg.stride_glu = 1) (hsc : 1 ≤ cfg.stride_conv)
    (hkc : 1 ≤ cfg.kernel_conv) (hr : 1 ≤ cfg.resample)
    (hrs : cfg.resample ∣ cfg.stride_conv) (hrk : cfg.resample ∣ cfg.kernel_conv)
    (L : ℤ) (hL : 0 < L) :
    IsLeast {M : ℤ | L ≤ M ∧ validLength cfg M = M} (validLength cfg L) := by
  constructor
  · exact ⟨le_validLength cfg hkg hsg hsc hr L,
      validLength_idempotent cfg hkg hsg hsc hkc hr hrs hrk L⟩
  · intro M hM
    have hmono := validLength_monotone cfg hsc (by rw [hsg]) hr hM.1
    rw [hM.2] at hmono
    exact hmono

/-- Witness for the amended C5 at the default configuration and L = 16000. -/
theorem validLength_isLeast_witness :
    IsLeast {M : ℤ | 16000 ≤ M ∧ validLength {} M = M} (validLength {} 16000) :=
  validLength_isLeast {} rfl rfl (by decide) (by decide) (by decide)
    (by decide) (by decide) 16000 (by decide)

/-- C3 (amended): construction performs exactly one validation, the
resample assertion: it fails iff `resample ∉ {1, 2, 4}` and succeeds for
every other configuration; no other configuration check (depth,
hidden_dim, channel counts) exists. -/
theorem demucsInit_isSome_iff (cfg : Cfg) (iw : InitW) :
    (demucsInit cfg iw).isSome = true ↔
      (cfg.resample = 1 ∨ cfg.resample = 2 ∨ cfg.resample = 4) := by
  unfold demucsInit
  by_cases h : cfg.resample = 1 ∨ cfg.resample = 2 ∨ cfg.resample = 4
  · simp [h]
  · simp [h]

/-- C3 counterexample: the claim says construction must fail for
non-positive `depth`, but the constructor checks only the resample
factor: with `depth = 0` (and default `resample = 4`) construction
succeeds. -/
theorem demucsInit_depth_zero_succeeds :
    (demucsInit cfgDepth0 iwTriv).isSome = true := by
  unfold demucsInit
  have h : cfgDepth0.resample = 4 := rfl
  simp [h]

lemma flat2_map_map {α β : Type} (f : α → β) (xs : List (List α)) :
    flat2 (xs.map (List.map f)) = (flat2 xs).map f := by
  induction xs with
  | nil => rfl
  | cons a as ih => simp [flat2, List.foldr_cons, ih.symm]; simp [flat2] at ih; simp [ih]

lemma demucsInit_some_eq {cfg : Cfg} {iw : InitW} {M : DemucsM}
    (hM : demucsInit cfg iw = some M) : M = demucsBuild cfg iw := by
  unfold demucsInit at hM
  by_cases h : cfg.resample = 1 ∨ cfg.resample = 2 ∨ cfg.resample = 4
  · rw [if_pos h] at hM
    exact (Option.some.inj hM).symm
  · rw [if_neg h] at hM
    cases hM

/-- C8: when `rescale` is non-zero, construction applies exactly one
rescaling pass: compared with the same construction with rescaling
disabled, every conv and transposed-conv module (and only those: the list
`convModules` is everything `self.modules()` matches) has its weight
tensor divided by `scale = sqrt(std(W) / rescale)` and its bias, when
present, divided by the same per-module scale. -/
theorem rescale_conv_formula (cfg : Cfg) (iw : InitW) (M M0 : DemucsM)
    (hres : cfg.rescale ≠ 0)
    (hM : demucsInit cfg iw = some M)
    (hM0 : demucsInit { cfg with rescale := 0 } iw = some M0) :
    convModules M = (convModules M0).map (fun P =>
      { P with
        weight := P.weight.map (fun r => r.map (fun v => v.map
          (fun a => a / Real.sqrt (tensorStd P.weight / cfg.rescale))))
        bias := P.bias.map (fun b => b.map
          (fun a => a / Real.sqrt (tensorStd P.weight / cfg.rescale))) }) := by
  obtain rfl := demucsInit_some_eq hM
  obtain rfl := demucsInit_some_eq hM0
  have h0 : ¬ (({ cfg with rescale := 0 } : Cfg).rescale ≠ 0) := by
    simp
  simp only [convModules, demucsBuild, if_pos hres, if_neg h0]
  have henc : buildEncBlock { cfg with rescale := 0 } iw = buildEncBlock cfg iw := rfl
  have hdec : (fun i => buildDecBlock { cfg with rescale := 0 } iw
      (({ cfg with rescale := 0 } : Cfg).depth - i - 1)) =
      (fun i => buildDecBlock cfg iw (cfg.depth - i - 1)) := rfl
  rw [henc, hdec]
  have e1 : (((List.range cfg.depth).map (buildEncBlock cfg iw)).map
      (rescaleEncBlock cfg.rescale)).map (fun B => [B.conv, B.convGlu]) =
      (((List.range cfg.depth).map (buildEncBlock cfg iw)).map
        (fun B => [B.conv, B.convGlu])).map (List.map (rescaleConvP cfg.rescale)) := by
    simp only [List.map_map]
    rfl
  have e2 : (((List.range cfg.depth).map
        (fun i => buildDecBlock cfg iw (cfg.depth - i - 1))).map
      (rescaleDecBlock cfg.rescale)).map (fun B => [B.convGlu, B.deconv]) =
      (((List.range cfg.depth).map
          (fun i => buildDecBlock cfg iw (cfg.depth - i - 1))).map
        (fun B => [B.convGlu, B.deconv])).map (List.map (rescaleConvP cfg.rescale)) := by
    simp only [List.map_map]
    rfl
  rw [e1, e2, flat2_map_map, flat2_map_map, ← List.map_append]
  rfl

lemma demucsInit_cfgW8 : demucsInit cfgW8 iwTriv = some (demucsBuild cfgW8 iwTriv) := by
  unfold demucsInit
  rw [if_pos]
  exact Or.inl rfl

lemma demucsInit_cfgW8z :
    demucsInit { cfgW8 with rescale := 0 } iwTriv =
      some (demucsBuild { cfgW8 with rescale := 0 } iwTriv) := by
  unfold demucsInit
  rw [if_pos]
  exact Or.inl rfl

/-- Witness for C8 at a concrete configuration. -/
theorem rescale_conv_formula_witness :
    convModules (demucsBuild cfgW8 iwTriv) =
      (convModules (demucsBuild { cfgW8 with rescale := 0 } iwTriv)).map (fun P =>
        { P with
          weight := P.weight.map (fun r => r.map (fun v => v.map
            (fun a => a / Real.sqrt (tensorStd P.weight / cfgW8.rescale))))
          bias := P.bias.map (fun b => b.map
            (fun a => a / Real.sqrt (tensorStd P.weight / cfgW8.rescale))) }) :=
  rescale_conv_formula cfgW8 iwTriv _ _ (one_ne_zero) demucsInit_cfgW8 demucsInit_cfgW8z

/-- C10: the rescaling pass touches only the conv and transposed-conv
parameters: the LSTM bottleneck and the linear projection of the
constructed model are identical to those of the same construction with
rescaling disabled (in the source they are created only after
`_rescale_conv` has run, and the `isinstance` filter excludes them). -/
theorem rescale_frame_rnn_linear (cfg : Cfg) (iw : InitW) (M M0 : DemucsM)
    (hres : cfg.rescale ≠ 0)
    (hM : demucsInit cfg iw = some M)
    (hM0 : demucsInit { cfg with rescale := 0 } iw = some M0) :
    M.rnn = M0.rnn ∧ M.lin = M0.lin := by
  obtain rfl := demucsInit_some_eq hM
  obtain rfl := demucsInit_some_eq hM0
  exact ⟨rfl, rfl⟩

/-- Witness for C10 at a concrete configuration. -/
theorem rescale_frame_rnn_linear_witness :
    (demucsBuild cfgW8 iwTriv).rnn =
        (demucsBuild { cfgW8 with rescale := 0 } iwTriv).rnn ∧
      (demucsBuild cfgW8 iwTriv).lin =
        (demucsBuild { cfgW8 with rescale := 0 } iwTriv).lin :=
  rescale_frame_rnn_linear cfgW8 iwTriv _ _ (one_ne_zero)
    demucsInit_cfgW8 demucsInit_cfgW8z

/-- C9: activation placement.  The constructed encoder has `depth`
blocks whose post-conv activation is ReLU exactly when `original` is set
or the level is at least 1; the constructed decoder has `depth` blocks
(stored deepest level first) of which every one except the last ends in
ReLU, and the last (level 0, declared to produce 1 output channel) has no
activation. -/
theorem activation_placement (cfg : Cfg) (iw : InitW) (M : DemucsM)
    (hM : demucsInit cfg iw = some M) :
    M.encoder.length = cfg.depth ∧ M.decoder.length = cfg.depth ∧
    (∀ i (h : i < M.encoder.length),
      (M.encoder[i]).useRelu = (if i = 0 then cfg.original else true)) ∧
    (∀ i (h : i < M.decoder.length),
      (M.decoder[i]).useRelu = decide (i + 1 < cfg.depth) ∧
        (i + 1 = cfg.depth → (M.decoder[i]).deconv.outC = 1)) := by
  obtain rfl := demucsInit_some_eq hM
  have hval : ∀ (l : List EncBlock), (if cfg.rescale ≠ 0 then
      l.map (rescaleEncBlock cfg.rescale) else l).length = l.length := by
    intro l
    by_cases hres : cfg.rescale ≠ 0 <;> simp [hres]
  refine ⟨?_, ?_, ?_, ?_⟩
  · by_cases hres : cfg.rescale ≠ 0 <;> simp [demucsBuild, hres]
  · by_cases hres : cfg.rescale ≠ 0 <;> simp [demucsBuild, hres]
  · intro i h
    have hrelu : (demucsBuild cfg iw).encoder[i].useRelu =
        (cfg.original || decide (0 < i)) := by
      by_cases hres : cfg.rescale ≠ 0 <;>
        · simp only [demucsBuild, if_pos, if_neg, hres, ite_true, ite_false,
            ite_not] at h ⊢
          simp only [List.getElem_map, List.getElem_range] at h ⊢
          first
          | rfl
          | simp [rescaleEncBlock, buildEncBlock]
    rw [hrelu]
    rcases i with _ | i
    · simp
    · simp
  · intro i h
    have hlen : i < cfg.depth := by
      have := h
      by_cases hres : cfg.rescale ≠ 0 <;> simp [demucsBuild, hres] at this <;> omega
    have hdec : (demucsBuild cfg iw).decoder[i] =
        (if cfg.rescale ≠ 0 then
          rescaleDecBlock cfg.rescale (buildDecBlock cfg iw (cfg.depth - i - 1))
        else buildDecBlock cfg iw (cfg.depth - i - 1)) := by
      by_cases hres : cfg.rescale ≠ 0 <;>
        simp [demucsBuild, hres, List.getElem_map, List.getElem_range]
    constructor
    · rw [hdec]
      have hrelu : ∀ (B : DecBlock), (if cfg.rescale ≠ 0 then
          rescaleDecBlock cfg.rescale B else B).useRelu = B.useRelu := by
        intro B
        by_cases hres : cfg.rescale ≠ 0 <;> simp [hres, rescaleDecBlock]
      rw [hrelu]
      show decide (0 < cfg.depth - i - 1) = decide (i + 1 < cfg.depth)
      rw [decide_eq_decide]
      omega
    · intro hlast
      rw [hdec]
      have hout : ∀ (B : DecBlock), (if cfg.rescale ≠ 0 then
          rescaleDecBlock cfg.rescale B else B).deconv.outC = B.deconv.outC := by
        intro B
        by_cases hres : cfg.rescale ≠ 0 <;> simp [hres, rescaleDecBlock, rescaleConvP]
      rw [hout]
      show (if cfg.depth - i - 1 = 0 then 1 else natCh cfg (cfg.depth - i - 1 - 1)) = 1
      rw [if_pos (by omega)]

/-- Witness for C9 at the default configuration. -/
theorem activation_placement_witness :
    (demucsBuild {} iwTriv).encoder.length = ({} : Cfg).depth ∧
      (demucsBuild {} iwTriv).decoder.length = ({} : Cfg).depth ∧
      (∀ i (h : i < (demucsBuild {} iwTriv).encoder.length),
        ((demucsBuild {} iwTriv).encoder[i]).useRelu =
          (if i = 0 then ({} : Cfg).original else true)) ∧
      (∀ i (h : i < (demucsBuild {} iwTriv).decoder.length),
        ((demucsBuild {} iwTriv).decoder[i]).useRelu =
            decide (i + 1 < ({} : Cfg).depth) ∧
          (i + 1 = ({} : Cfg).depth →
            ((demucsBuild {} iwTriv).decoder[i]).deconv.outC = 1)) :=
  activation_placement {} iwTriv _ (by
    unfold demucsInit
    rw [if_pos]
    exact Or.inr (Or.inr rfl))

lemma mem_zipWith_imp {α β γ : Type} {f : α → β → γ} {l1 : List α} {l2 : List β}
    {x : γ} (h : x ∈ List.zipWith f l1 l2) : ∃ a b, a ∈ l1 ∧ b ∈ l2 ∧ x = f a b := by
  induction l1 generalizing l2 with
  | nil => simp at h
  | cons a as ih =>
      cases l2 with
      | nil => simp at h
      | cons b bs =>
          rw [List.zipWith_cons_cons, List.mem_cons] at h
          rcases h with h | h
          · exact ⟨a, b, List.mem_cons_self _ _, List.mem_cons_self _ _, h⟩
          · obtain ⟨a', b', ha, hb, hx⟩ := ih h
            exact ⟨a', b', List.mem_cons_of_mem _ ha, List.mem_cons_of_mem _ hb, hx⟩

lemma chTime_of_shape {xs : List (List ℝ)} {c n : ℕ} (h : HasShape xs c n)
    (hc : 1 ≤ c) : chTime xs = n := by
  obtain ⟨hlen, hmem⟩ := h
  cases xs with
  | nil => simp at hlen; omega
  | cons ch rest => exact hmem ch (List.mem_cons_self _ _)

lemma vsum_length {xs : List (List ℝ)} {n : ℕ} (hne : xs ≠ [])
    (hmem : ∀ ch ∈ xs, ch.length = n) : (vsum xs).length = n := by
  induction xs with
  | nil => simp at hne
  | cons ch rest ih =>
      cases rest with
      | nil => exact hmem ch (List.mem_cons_self _ _)
      | cons ch2 rest2 =>
          show (vadd ch (vsum (ch2 :: rest2))).length = n
          unfold vadd
          rw [List.length_zipWith, ih (by simp)
            (fun c hc => hmem c (List.mem_cons_of_mem _ hc)),
            hmem ch (List.mem_cons_self _ _), min_self]

lemma mixdown_shape {xs : List (List ℝ)} {c n : ℕ} (h : HasShape xs c n)
    (hc : 1 ≤ c) : HasShape (mixdown xs) 1 n := by
  obtain ⟨hlen, hmem⟩ := h
  refine ⟨rfl, ?_⟩
  intro ch hch
  rw [mixdown, List.mem_singleton] at hch
  subst hch
  rw [List.length_map]
  exact vsum_length (by intro hnil; rw [hnil] at hlen; simp at hlen; omega) hmem

lemma map_map_shape {xs : List (List ℝ)} {c n : ℕ} (h : HasShape xs c n)
    (f : List ℝ → ℝ → ℝ) :
    HasShape (xs.map (fun ch => ch.map (f ch))) c n := by
  obtain ⟨hlen, hmem⟩ := h
  refine ⟨by simpa using hlen, ?_⟩
  intro ch hch
  rw [List.mem_map] at hch
  obtain ⟨ch0, hch0, rfl⟩ := hch
  rw [List.length_map]
  exact hmem ch0 hch0

lemma padTo_length (t : ℤ) (ch : List ℝ) : (padTo t ch).length = t.toNat := by
  unfold padTo
  by_cases h : (ch.length : ℤ) ≤ t
  · rw [if_pos h, List.length_append, List.length_replicate]
    omega
  · rw [if_neg h, List.length_take]
    omega

lemma padTo_shape {xs : List (List ℝ)} {c n : ℕ} (h : HasShape xs c n) (t : ℤ) :
    HasShape (xs.map (padTo t)) c t.toNat := by
  obtain ⟨hlen, _⟩ := h
  refine ⟨by simpa using hlen, ?_⟩
  intro ch hch
  rw [List.mem_map] at hch
  obtain ⟨ch0, _, rfl⟩ := hch
  exact padTo_length t ch0

lemma upsample2_shape {xs : List (List ℝ)} {c n : ℕ} (h : HasShape xs c n) :
    HasShape (upsample2 xs) c (2 * n) := by
  obtain ⟨hlen, hmem⟩ := h
  refine ⟨by rw [upsample2, List.length_map]; exact hlen, ?_⟩
  intro ch hch
  rw [upsample2, List.mem_map] at hch
  obtain ⟨ch0, hch0, rfl⟩ := hch
  rw [List.length_map, List.length_range, hmem ch0 hch0]

lemma downsample2_shape {xs : List (List ℝ)} {c n : ℕ} (h : HasShape xs c n) :
    HasShape (downsample2 xs) c ((n + 1) / 2) := by
  obtain ⟨hlen, hmem⟩ := h
  refine ⟨by rw [downsample2, List.length_map]; exact hlen, ?_⟩
  intro ch hch
  rw [downsample2, List.mem_map] at hch
  obtain ⟨ch0, hch0, rfl⟩ := hch
  rw [List.length_map, List.length_range, hmem ch0 hch0]

lemma padChans_chTime {xs : List (List ℝ)} {c n : ℕ} (h : HasShape xs c n)
    (hc : 1 ≤ c) (p : ℕ) : chTime (padChans p xs) = n + 2 * p := by
  obtain ⟨hlen, hmem⟩ := h
  cases xs with
  | nil => simp at hlen; omega
  | cons ch rest =>
      have hch := hmem ch (List.mem_cons_self _ _)
      show (List.replicate p 0 ++ ch ++ List.replicate p 0).length = n + 2 * p
      simp only [List.length_append, List.length_replicate, hch]
      omega

lemma conv1d_shape {P : ConvP} {xs : List (List ℝ)} {c n : ℕ}
    (h : HasShape xs c n) (hc : 1 ≤ c) :
    HasShape (conv1d P xs) P.weight.length
      (convLen P.kernel P.stride (n + 2 * P.padding)) := by
  constructor
  · rw [conv1d, List.length_map, List.length_range]
  · intro ch hch
    rw [conv1d, List.mem_map] at hch
    obtain ⟨oc, _, rfl⟩ := hch
    rw [List.length_map, List.length_range, padChans_chTime h hc]

lemma reluC_shape {xs : List (List ℝ)} {c n : ℕ} (h : HasShape xs c n) :
    HasShape (reluC xs) c n := by
  obtain ⟨hlen, hmem⟩ := h
  refine ⟨by rw [reluC, List.length_map]; exact hlen, ?_⟩
  intro ch hch
  rw [reluC, List.mem_map] at hch
  obtain ⟨ch0, hch0, rfl⟩ := hch
  rw [List.length_map]
  exact hmem ch0 hch0

lemma gluC_shape {xs : List (List ℝ)} {c n : ℕ} (h : HasShape xs c n) :
    HasShape (gluC xs) (c / 2) n := by
  obtain ⟨hlen, hmem⟩ := h
  constructor
  · rw [gluC, List.length_zipWith, List.length_take, List.length_drop, hlen]
    omega
  · intro ch hch
    rw [gluC] at hch
    obtain ⟨a, b, ha, hb, rfl⟩ := mem_zipWith_imp hch
    rw [List.length_zipWith, hmem a (List.mem_of_mem_take ha),
      hmem b (List.mem_of_mem_drop hb), min_self]

lemma convT1d_shape {P : ConvP} {xs : List (List ℝ)} {c n oc : ℕ}
    (h : HasShape xs c n) (hc : 1 ≤ c) (hw : P.weight ≠ [])
    (hrows : ∀ r ∈ P.weight, r.length = oc) :
    HasShape (convT1d P xs) oc
      (if n = 0 then 0 else (n - 1) * P.stride + P.kernel) := by
  have hhead : (P.weight.headD []).length = oc := by
    obtain ⟨r, rest, hPw⟩ := List.exists_cons_of_ne_nil hw
    rw [hPw]
    exact hrows r (hPw ▸ List.mem_cons_self _ _)
  have hct : chTime xs = n := chTime_of_shape h hc
  constructor
  · rw [convT1d, List.length_map, List.length_range, hhead]
  · intro ch hch
    rw [convT1d, List.mem_map] at hch
    obtain ⟨t, _, rfl⟩ := hch
    rw [List.length_map, List.length_range, hct]

lemma encBlockSpec_build (cfg : Cfg) (iw : InitW) (i : ℕ) (hi : i < cfg.depth)
    (hwf : WfIW cfg iw) : EncBlockSpec cfg i (buildEncBlock cfg iw i) := by
  obtain ⟨h1, h2, _, _, _⟩ := hwf i hi
  exact ⟨h1, rfl, rfl, rfl, h2, rfl, rfl, rfl⟩

lemma encBlockSpec_rescale (cfg : Cfg) (i : ℕ) (ref : ℝ) (B : EncBlock)
    (hB : EncBlockSpec cfg i B) : EncBlockSpec cfg i (rescaleEncBlock ref B) := by
  obtain ⟨h1, h2, h3, h4, h5, h6, h7, h8⟩ := hB
  exact ⟨by simpa [rescaleEncBlock, rescaleConvP] using h1, h2, h3, h4,
    by simpa [rescaleEncBlock, rescaleConvP] using h5, h6, h7, h8⟩

lemma decBlockSpec_build (cfg : Cfg) (iw : InitW) (level : ℕ)
    (hlevel : level < cfg.depth) (hch : 1 ≤ natCh cfg level)
    (hwf : WfIW cfg iw) : DecBlockSpec cfg level (buildDecBlock cfg iw level) := by
  obtain ⟨_, _, h3, h4, h5⟩ := hwf level hlevel
  refine ⟨h3, rfl, rfl, rfl, h4, ?_, h5, rfl, rfl⟩
  intro hnil
  rw [show (buildDecBlock cfg iw level).deconv.weight = iw.decConvW level from rfl]
    at hnil
  rw [hnil] at h4
  simp at h4
  omega

lemma decBlockSpec_rescale (cfg : Cfg) (level : ℕ) (ref : ℝ) (B : DecBlock)
    (hB : DecBlockSpec cfg level B) :
    DecBlockSpec cfg level (rescaleDecBlock ref B) := by
  obtain ⟨h1, h2, h3, h4, h5, h6, h7, h8, h9⟩ := hB
  refine ⟨by simpa [rescaleDecBlock, rescaleConvP] using h1, h2, h3, h4,
    by simpa [rescaleDecBlock, rescaleConvP] using h5, ?_, ?_, h8, h9⟩
  · simpa [rescaleDecBlock, rescaleConvP] using h6
  · intro r hr
    simp only [rescaleDecBlock, rescaleConvP, List.mem_map] at hr
    obtain ⟨r0, hr0, rfl⟩ := hr
    rw [List.length_map]
    exact h7 r0 hr0

lemma encBlockApply_shape {cfg : Cfg} {i : ℕ} {B : EncBlock}
    (hB : EncBlockSpec cfg i B) {x : List (List ℝ)} {t : ℕ}
    (hx : HasShape x (encInC cfg i) t) (hc1 : 1 ≤ encInC cfg i)
    (hc2 : 1 ≤ natCh cfg i) :
    HasShape (encBlockApply B x) (natCh cfg i) (encTimeStep cfg t) := by
  obtain ⟨h1, h2, h3, h4, h5, h6, h7, h8⟩ := hB
  have hconv : HasShape (conv1d B.conv x) (natCh cfg i) (encConvTime cfg t) := by
    have := conv1d_shape (P := B.conv) hx hc1
    rw [h1, h2, h3, h4] at this
    simpa [encConvTime] using this
  have hpost : HasShape (if B.useRelu then reluC (conv1d B.conv x)
      else conv1d B.conv x) (natCh cfg i) (encConvTime cfg t) := by
    by_cases hR : B.useRelu
    · rw [if_pos hR]
      exact reluC_shape hconv
    · rw [if_neg hR]
      exact hconv
  have hglu : HasShape (conv1d B.convGlu (if B.useRelu then reluC (conv1d B.conv x)
      else conv1d B.conv x)) (2 * natCh cfg i) (gluTime cfg (encConvTime cfg t)) := by
    have := conv1d_shape (P := B.convGlu) hpost hc2
    rw [h5, h6, h7, h8] at this
    simpa [gluTime] using this
  have := gluC_shape hglu
  rw [show 2 * natCh cfg i / 2 = natCh cfg i by omega] at this
  exact this

lemma decBlockApply_shape {cfg : Cfg} {level : ℕ} {B : DecBlock}
    (hB : DecBlockSpec cfg level B) {x : List (List ℝ)} {t : ℕ}
    (hx : HasShape x (natCh cfg level) t) (hc : 1 ≤ natCh cfg level) :
    HasShape (decBlockApply B x) (decOutC cfg level) (decTimeStep cfg t) := by
  obtain ⟨h1, h2, h3, h4, h5, h6, h7, h8, h9⟩ := hB
  have hglu1 : HasShape (conv1d B.convGlu x) (2 * natCh cfg level)
      (gluTime cfg t) := by
    have := conv1d_shape (P := B.convGlu) hx hc
    rw [h1, h2, h3, h4] at this
    simpa [gluTime] using this
  have hglu : HasShape (gluC (conv1d B.convGlu x)) (natCh cfg level)
      (gluTime cfg t) := by
    have := gluC_shape hglu1
    rw [show 2 * natCh cfg level / 2 = natCh cfg level by omega] at this
    exact this
  have hT : HasShape (convT1d B.deconv (gluC (conv1d B.convGlu x)))
      (decOutC cfg level) (decTimeStep cfg t) := by
    have := convT1d_shape (P := B.deconv) hglu hc h6 h7
    rw [h8, h9] at this
    rw [decTimeStep, tlenT]
    exact this
  show HasShape (if B.useRelu then reluC _ else _) _ _
  by_cases hR : B.useRelu
  · rw [if_pos hR]
    exact reluC_shape hT
  · rw [if_neg hR]
    exact hT

lemma lstmRun_length (p : LstmLayerP) (h c : List ℝ) (xs : List (List ℝ)) :
    (lstmRun p h c xs).length = xs.length := by
  induction xs generalizing h c with
  | nil => rfl
  | cons x rest ih =>
      show ((lstmCell p h c x).1 :: lstmRun p _ _ rest).length = rest.length + 1
      rw [List.length_cons, ih]

lemma rnnApply_length (R : RnnP) (xs : List (List ℝ)) :
    (rnnApply R xs).length = xs.length := by
  unfold rnnApply
  induction R.layers generalizing xs with
  | nil => rfl
  | cons pl rest ih =>
      rw [List.foldl_cons, ih]
      cases hp : pl.2 with
      | none => exact lstmRun_length _ _ _ _
      | some pb =>
          simp only [lstmLayerF, lstmLayerB, List.length_zipWith,
            lstmRun_length, List.length_reverse, min_self]

lemma tslices_length (xs : List (List ℝ)) : (tslices xs).length = chTime xs := by
  rw [tslices, List.length_map, List.length_range]

lemma bottleneckApply_shape (C : ℕ) (R : RnnP) (l : Option LinP)
    (xs : List (List ℝ)) :
    HasShape (bottleneckApply C R l xs) C (chTime xs) := by
  constructor
  · rw [bottleneckApply, fromTslices, List.length_map, List.length_range]
  · intro ch hch
    rw [bottleneckApply, fromTslices, List.mem_map] at hch
    obtain ⟨chan, _, rfl⟩ := hch
    rw [List.length_map, List.length_map, rnnApply_length, tslices_length]

lemma addTrim_shape {x sk : List (List ℝ)} {c t t' : ℕ}
    (hx : HasShape x c t) (hsk : HasShape sk c t') (hc : 1 ≤ c) (htt : t ≤ t') :
    HasShape (addTrim x sk) c t := by
  have hct : chTime x = t := chTime_of_shape hx hc
  constructor
  · rw [addTrim, List.length_zipWith, hx.1, hsk.1, min_self]
  · intro ch hch
    rw [addTrim] at hch
    obtain ⟨a, b, ha, hb, rfl⟩ := mem_zipWith_imp hch
    rw [List.length_zipWith, List.length_take, hct, hx.2 a ha, hsk.2 b hb]
    omega

/-- Shape propagation through the encoder loop over blocks for levels
`i, i+1, ..., i+cnt-1`: the final representation and every captured skip
have the declared channel counts, with time lengths given by iterating
the per-block time map. -/
lemma encodeLoop_shape (cfg : Cfg) (fenc : ℕ → EncBlock)
    (hb : ∀ i, i < cfg.depth → EncBlockSpec cfg i (fenc i))
    (hch : ∀ i, i < cfg.depth → 1 ≤ natCh cfg i) :
    ∀ (cnt i : ℕ), i + cnt ≤ cfg.depth → ∀ (x : List (List ℝ)) (t : ℕ),
      HasShape x (encInC cfg i) t →
      HasShape (encodeLoop ((List.range' i cnt).map fenc) x).2
          (encInC cfg (i + cnt)) ((encTimeStep cfg)^[cnt] t) ∧
        (encodeLoop ((List.range' i cnt).map fenc) x).1.length = cnt ∧
        ∀ m, m < cnt →
          HasShape ((encodeLoop ((List.range' i cnt).map fenc) x).1.getD m [])
            (natCh cfg (i + m)) ((encTimeStep cfg)^[m + 1] t) := by
  intro cnt
  induction cnt with
  | zero =>
      intro i hi x t hx
      refine ⟨by simpa using hx, rfl, ?_⟩
      intro m hm
      omega
  | succ cnt ih =>
      intro i hi x t hx
      have hidep : i < cfg.depth := by omega
      have hinc : 1 ≤ encInC cfg i := by
        unfold encInC
        by_cases h0 : i = 0
        · rw [if_pos h0]
        · rw [if_neg h0]
          exact hch (i - 1) (by omega)
      have hstep : HasShape (encBlockApply (fenc i) x) (natCh cfg i)
          (encTimeStep cfg t) :=
        encBlockApply_shape (hb i hidep) hx hinc (hch i hidep)
      have hstep' : HasShape (encBlockApply (fenc i) x) (encInC cfg (i + 1))
          (encTimeStep cfg t) := by
        have : encInC cfg (i + 1) = natCh cfg i := by
          unfold encInC
          rw [if_neg (by omega)]
          simp
        rw [this]
        exact hstep
      have hrest := ih (i + 1) (by omega) (encBlockApply (fenc i) x)
        (encTimeStep cfg t) hstep'
      rw [List.range'_succ, List.map_cons]
      show HasShape (encBlockApply (fenc i) x ::
          (encodeLoop ((List.range' (i+1) cnt).map fenc) _).1,
          (encodeLoop ((List.range' (i+1) cnt).map fenc) _).2).2 _ _ ∧ _
      refine ⟨?_, ?_, ?_⟩
      · have := hrest.1
        rw [show i + 1 + cnt = i + (cnt + 1) by omega] at this
        rw [show (encTimeStep cfg)^[cnt + 1] t =
          (encTimeStep cfg)^[cnt] (encTimeStep cfg t) from
            Function.iterate_succ_apply _ _ _]
        exact this
      · show (encBlockApply (fenc i) x :: _).length = cnt + 1
        rw [List.length_cons, hrest.2.1]
      · intro m hm
        cases m with
        | zero =>
            show HasShape (encBlockApply (fenc i) x) (natCh cfg (i + 0))
              ((encTimeStep cfg)^[1] t)
            simpa using hstep
        | succ m =>
            have := hrest.2.2 m (by omega)
            show HasShape ((encodeLoop ((List.range' (i+1) cnt).map fenc) _).1.getD m [])
              (natCh cfg (i + (m + 1))) ((encTimeStep cfg)^[m + 1 + 1] t)
            rw [show i + (m + 1) = i + 1 + m by omega,
              show (encTimeStep cfg)^[m + 1 + 1] t =
                (encTimeStep cfg)^[m + 1] (encTimeStep cfg t) by
                  rw [← Function.iterate_succ_apply]]
            exact this

/-- Shape propagation through the decoder loop: starting at loop index
`j` with the matching skips (most recent first), every level's skip has
the same channel count and, when the supplied time invariant holds, the
loop ends with the declared final channels.  `u` assigns the time length
to each pyramid position (`u (depth - j)` is the time entering loop
index `j`). -/
lemma decodeLoop_shape (cfg : Cfg) (fdec : ℕ → DecBlock)
    (hbd : ∀ i, i < cfg.depth → DecBlockSpec cfg (cfg.depth - i - 1) (fdec i))
    (hch : ∀ i, i < cfg.depth → 1 ≤ natCh cfg i) (u : ℕ → ℕ)
    (hstep : ∀ i, i < cfg.depth → decTimeStep cfg (u (i + 1)) = u i) :
    ∀ (cnt j : ℕ), j + cnt = cfg.depth → ∀ (x : List (List ℝ))
      (sk : List (List (List ℝ))),
      HasShape x (decOutC cfg (cfg.depth - j)) (u (cfg.depth - j)) →
      sk.length = cnt →
      (∀ m, m < cnt → HasShape (sk.getD m [])
        (natCh cfg (cfg.depth - 1 - j - m)) (u (cfg.depth - j - m))) →
      HasShape (decodeLoop ((List.range' j cnt).map fdec) sk x)
        (decOutC cfg (cfg.depth - j - cnt)) (u (cfg.depth - j - cnt)) := by
  intro cnt
  induction cnt with
  | zero =>
      intro j hj x sk hx hsklen hsk
      simpa using hx
  | succ cnt ih =>
      intro j hj x sk hx hsklen hsk
      have hjd : j < cfg.depth := by omega
      obtain ⟨s0, sk', rfl⟩ : ∃ s0 sk', sk = s0 :: sk' := by
        cases sk with
        | nil => simp at hsklen
        | cons a b => exact ⟨a, b, rfl⟩
      have hlevel : cfg.depth - j - 1 = cfg.depth - 1 - j := by omega
      have hs0 : HasShape s0 (natCh cfg (cfg.depth - 1 - j)) (u (cfg.depth - j)) := by
        have := hsk 0 (by omega)
        simpa using this
      have hxch : decOutC cfg (cfg.depth - j) = natCh cfg (cfg.depth - 1 - j) := by
        unfold decOutC
        rw [if_neg (by omega), show cfg.depth - j - 1 = cfg.depth - 1 - j by omega]
      have hcpos : 1 ≤ natCh cfg (cfg.depth - 1 - j) := hch _ (by omega)
      have hadd : HasShape (addTrim x s0) (natCh cfg (cfg.depth - 1 - j))
          (u (cfg.depth - j)) := by
        rw [hxch] at hx
        exact addTrim_shape hx hs0 hcpos le_rfl
      have hspec : DecBlockSpec cfg (cfg.depth - 1 - j) (fdec j) := by
        have := hbd j hjd
        rwa [show cfg.depth - j - 1 = cfg.depth - 1 - j by omega] at this
      have hblock0 := decBlockApply_shape hspec hadd hcpos
      have htime : decTimeStep cfg (u (cfg.depth - j)) = u (cfg.depth - 1 - j) := by
        rw [show cfg.depth - j = (cfg.depth - 1 - j) + 1 by omega]
        exact hstep (cfg.depth - 1 - j) (by omega)
      rw [htime] at hblock0
      have hblock : HasShape (decBlockApply (fdec j) (addTrim x s0))
          (decOutC cfg (cfg.depth - (j + 1))) (u (cfg.depth - (j + 1))) := by
        rw [show cfg.depth - (j + 1) = cfg.depth - 1 - j by omega]
        exact hblock0
      have hres := ih (j + 1) (by omega) (decBlockApply (fdec j) (addTrim x s0)) sk'
        hblock (by simpa using hsklen)
        (by
          intro m hm
          have := hsk (m + 1) (by omega)
          rw [show cfg.depth - 1 - j - (m + 1) = cfg.depth - 1 - (j + 1) - m by omega,
            show cfg.depth - j - (m + 1) = cfg.depth - (j + 1) - m by omega] at this
          simpa using this)
      rw [List.range'_succ, List.map_cons]
      simp only [decodeLoop, List.headD_cons, List.tail_cons]
      rw [show cfg.depth - j - (cnt + 1) = cfg.depth - (j + 1) - cnt by omega]
      exact hres

lemma gluTime_id (cfg : Cfg) (hkg : cfg.kernel_glu = 1) (hsg : cfg.stride_glu = 1)
    {t : ℕ} (ht : 1 ≤ t) : gluTime cfg t = t := by
  unfold gluTime convLen
  rw [hkg, hsg, show (1 : ℕ) / 2 = 0 from rfl, Nat.mul_zero, Nat.add_zero,
    if_neg (by omega), Nat.div_one]
  omega

lemma encConvTime_exact (cfg : Cfg) (hsc : 1 ≤ cfg.stride_conv) {z : ℕ}
    (hz : 1 ≤ z) :
    encConvTime cfg ((z - 1) * cfg.stride_conv + cfg.kernel_conv) = z := by
  unfold encConvTime convLen
  rw [if_neg (by omega), Nat.add_sub_cancel,
    Nat.mul_div_cancel _ (by omega : 0 < cfg.stride_conv)]
  omega

lemma decIntStep_toNat (k s : ℕ) (z : ℤ) (hz : 1 ≤ z) :
    (decIntStep k s z).toNat = (z.toNat - 1) * s + k := by
  have hz' : 1 ≤ z.toNat := by omega
  have h1 : ((z.toNat - 1 : ℕ) : ℤ) = z - 1 := by omega
  have h2 : (((z.toNat - 1) * s + k : ℕ) : ℤ) = (z - 1) * (s : ℤ) + (k : ℤ) := by
    push_cast [h1]
    ring
  unfold decIntStep
  rw [← h2, Int.toNat_natCast]

lemma encTimeStep_exact (cfg : Cfg) (hkg : cfg.kernel_glu = 1)
    (hsg : cfg.stride_glu = 1) (hsc : 1 ≤ cfg.stride_conv) (z : ℤ) (hz : 1 ≤ z) :
    encTimeStep cfg ((decIntStep cfg.kernel_conv cfg.stride_conv z).toNat)
      = z.toNat := by
  rw [decIntStep_toNat _ _ z hz]
  unfold encTimeStep
  rw [encConvTime_exact cfg hsc (by omega : 1 ≤ z.toNat)]
  exact gluTime_id cfg hkg hsg (by omega)

lemma decTimeStep_exact (cfg : Cfg) (hkg : cfg.kernel_glu = 1)
    (hsg : cfg.stride_glu = 1) (z : ℤ) (hz : 1 ≤ z) :
    decTimeStep cfg z.toNat
      = (decIntStep cfg.kernel_conv cfg.stride_conv z).toNat := by
  unfold decTimeStep
  rw [gluTime_id cfg hkg hsg (by omega : 1 ≤ z.toNat), tlenT,
    if_neg (by omega), decIntStep_toNat _ _ z hz]

/-- At a value of `valid_length`, the analytic encoder/decoder passes are
exact: the decoder iterate inverts the encoder iterate back to the
(resampled) valid length itself. -/
lemma validLength_exact_chain (cfg : Cfg) (hkg : cfg.kernel_glu = 1)
    (hsg : cfg.stride_glu = 1) (hsc : 1 ≤ cfg.stride_conv)
    (hkc : 1 ≤ cfg.kernel_conv) (hr : 1 ≤ cfg.resample)
    (hrs : cfg.resample ∣ cfg.stride_conv) (hrk : cfg.resample ∣ cfg.kernel_conv)
    (hd : 1 ≤ cfg.depth) (L : ℤ) :
    (decIntStep cfg.kernel_conv cfg.stride_conv)^[cfg.depth]
        ((encIntLevel cfg)^[cfg.depth]
          (validLength cfg L * ((cfg.resample : ℕ) : ℤ)))
      = validLength cfg L * ((cfg.resample : ℕ) : ℤ) := by
  obtain ⟨n, hdep⟩ : ∃ n, cfg.depth = n + 1 := ⟨cfg.depth - 1, by omega⟩
  set y : ℤ := (encIntLevel cfg)^[cfg.depth] (L * (cfg.resample : ℤ)) with hy
  have hy1 : 1 ≤ y := by
    rw [hy, hdep, Function.iterate_succ_apply' (encIntLevel cfg)]
    exact encIntLevel_pos cfg _
  set w : ℤ := (decIntStep cfg.kernel_conv cfg.stride_conv)^[cfg.depth] y with hw
  have hdvd : (cfg.resample : ℤ) ∣ w := by
    rw [hw, hdep,
      Function.iterate_succ_apply' (decIntStep cfg.kernel_conv cfg.stride_conv)]
    exact dvd_decIntStep _ _ _ hrs hrk _
  obtain ⟨c, hc⟩ := hdvd
  have hcr : c * ((cfg.resample : ℕ) : ℤ) = w := by rw [hc]; ring
  have hV : validLength cfg (L : ℤ) = c := by
    unfold validLength
    rw [← hy, ← hw, hc, mul_comm ((cfg.resample : ℕ) : ℤ) c,
      cdiv_exact c cfg.resample hr]
  rw [hV, hcr]
  have hEw : (encIntLevel cfg)^[cfg.depth] w = y := by
    rw [hw]
    exact enc_of_dec_iterate cfg hkg hsg hsc hkc cfg.depth y hy1
  rw [hEw, ← hw]

lemma encCh_eq (cfg : Cfg) (hd : 1 ≤ cfg.depth) :
    encCh cfg = natCh cfg (cfg.depth - 1) := by
  unfold encCh natCh
  have hexp : (2 : ℚ) ^ ((cfg.depth : ℤ) - 1) = (2 : ℚ) ^ (cfg.depth - 1) := by
    rw [show ((cfg.depth : ℤ) - 1) = ((cfg.depth - 1 : ℕ) : ℤ) by omega,
      zpow_natCast]
  rw [hexp]
  exact congrArg (fun q => (pyInt q).toNat) (by ring)

lemma getD_reverse {α : Type} (l : List α) (d : α) (m : ℕ) (hm : m < l.length) :
    l.reverse.getD m d = l.getD (l.length - 1 - m) d := by
  have h1 : m < l.reverse.length := by simpa using hm
  have h2 : l.length - 1 - m < l.length := by omega
  rw [List.getD_eq_getElem l.reverse d h1, List.getD_eq_getElem l d h2]
  exact List.getElem_reverse _

lemma encoder_spec_of_build (cfg : Cfg) (iw : InitW) (hwf : WfIW cfg iw) :
    ∃ fenc : ℕ → EncBlock,
      (demucsBuild cfg iw).encoder = (List.range cfg.depth).map fenc ∧
        ∀ i, i < cfg.depth → EncBlockSpec cfg i (fenc i) := by
  by_cases hres : cfg.rescale ≠ 0
  · refine ⟨fun i => rescaleEncBlock cfg.rescale (buildEncBlock cfg iw i), ?_, ?_⟩
    · simp only [demucsBuild, if_pos hres, List.map_map]
      rfl
    · intro i hi
      exact encBlockSpec_rescale cfg i _ _ (encBlockSpec_build cfg iw i hi hwf)
  · refine ⟨buildEncBlock cfg iw, ?_, ?_⟩
    · simp only [demucsBuild, if_neg hres]
    · intro i hi
      exact encBlockSpec_build cfg iw i hi hwf

lemma decoder_spec_of_build (cfg : Cfg) (iw : InitW)
    (hch : ∀ i, i < cfg.depth → 1 ≤ natCh cfg i) (hwf : WfIW cfg iw) :
    ∃ fdec : ℕ → DecBlock,
      (demucsBuild cfg iw).decoder = (List.range cfg.depth).map fdec ∧
        ∀ i, i < cfg.depth → DecBlockSpec cfg (cfg.depth - i - 1) (fdec i) := by
  by_cases hres : cfg.rescale ≠ 0
  · refine ⟨fun i => rescaleDecBlock cfg.rescale
      (buildDecBlock cfg iw (cfg.depth - i - 1)), ?_, ?_⟩
    · simp only [demucsBuild, if_pos hres, List.map_map]
      rfl
    · intro i hi
      exact decBlockSpec_rescale cfg _ _ _
        (decBlockSpec_build cfg iw _ (by omega) (hch _ (by omega)) hwf)
  · refine ⟨fun i => buildDecBlock cfg iw (cfg.depth - i - 1), ?_, ?_⟩
    · simp only [demucsBuild, if_neg hres]
    · intro i hi
      exact decBlockSpec_build cfg iw _ (by omega) (hch _ (by omega)) hwf

lemma resampleUp_shape (r : ℕ) (hr : r = 1 ∨ r = 2 ∨ r = 4)
    {xs : List (List ℝ)} {c n : ℕ} (h : HasShape xs c n) :
    HasShape (resampleUp r xs) c (r * n) := by
  rcases hr with rfl | rfl | rfl
  · rw [show resampleUp 1 xs = xs from rfl, one_mul]
    exact h
  · rw [show resampleUp 2 xs = upsample2 xs from rfl]
    exact upsample2_shape h
  · rw [show resampleUp 4 xs = upsample2 (upsample2 xs) from rfl,
      show (4 : ℕ) * n = 2 * (2 * n) by ring]
    exact upsample2_shape (upsample2_shape h)

lemma resampleDown_shape (r : ℕ) (hr : r = 1 ∨ r = 2 ∨ r = 4)
    {xs : List (List ℝ)} {c m : ℕ} (h : HasShape xs c (r * m)) :
    HasShape (resampleDown r xs) c m := by
  rcases hr with rfl | rfl | rfl
  · rw [show resampleDown 1 xs = xs from rfl]
    rw [one_mul] at h
    exact h
  · rw [show resampleDown 2 xs = downsample2 xs from rfl]
    have := downsample2_shape h
    rw [show (2 * m + 1) / 2 = m by omega] at this
    exact this
  · rw [show resampleDown 4 xs = downsample2 (downsample2 xs) from rfl]
    have h1 := downsample2_shape h
    rw [show (4 * m + 1) / 2 = 2 * m by omega] at h1
    have h2 := downsample2_shape h1
    rw [show (2 * m + 1) / 2 = m by omega] at h2
    exact h2

/-- Shape of one `forward` example under the amended conditions: output
has 1 channel and exactly the input time length. -/
lemma forwardEx_shape (cfg : Cfg) (iw : InitW)
    (hwf : WfIW cfg iw)
    (hch : ∀ i, i < cfg.depth → 1 ≤ natCh cfg i)
    (hkg : cfg.kernel_glu = 1) (hsg : cfg.stride_glu = 1)
    (hsc : 1 ≤ cfg.stride_conv) (hkc : 1 ≤ cfg.kernel_conv)
    (hr : cfg.resample = 1 ∨ cfg.resample = 2 ∨ cfg.resample = 4)
    (hrs : cfg.resample ∣ cfg.stride_conv) (hrk : cfg.resample ∣ cfg.kernel_conv)
    (hd : 1 ≤ cfg.depth) (ex0 : List (List ℝ)) (L : ℕ) (hL : 1 ≤ L)
    (hex0 : 1 ≤ ex0.length) (hexc : ∀ c ∈ ex0, c.length = L) :
    HasShape (forwardEx (demucsBuild cfg iw) ex0) 1 L := by
  have hr1 : 1 ≤ cfg.resample := by rcases hr with h | h | h <;> omega
  have hmix : HasShape (mixdown ex0) 1 L := mixdown_shape ⟨rfl, hexc⟩ hex0
  have hLr : chTime (mixdown ex0) = L := chTime_of_shape hmix (by omega)
  set V : ℤ := validLength cfg (L : ℤ) with hVdef
  have hLV : (L : ℤ) ≤ V := le_validLength cfg hkg hsg hsc hr1 L
  have hV0 : (0 : ℤ) ≤ V := by omega
  set Vn : ℕ := V.toNat with hVn
  have hLVn : L ≤ Vn := by omega
  have hnorm : HasShape (normSig cfg (mixdown ex0)) 1 L := by
    unfold normSig
    by_cases hn : cfg.normalize = true
    · rw [if_pos hn]
      exact map_map_shape hmix (fun c a => a / (1 / 1000 + stdDev c))
    · rw [if_neg hn]
      exact hmix
  have hpad : HasShape ((normSig cfg (mixdown ex0)).map (padTo V)) 1 Vn :=
    padTo_shape hnorm V
  have hT : HasShape (forwardPrep (demucsBuild cfg iw) ex0) 1
      (cfg.resample * Vn) := by
    show HasShape (resampleUp cfg.resample
      ((normSig cfg (mixdown ex0)).map
        (padTo (validLength cfg (chTime (mixdown ex0) : ℤ))))) 1
      (cfg.resample * Vn)
    rw [hLr]
    exact resampleUp_shape cfg.resample hr hpad
  -- the exact integer chain
  set y : ℤ := (encIntLevel cfg)^[cfg.depth] (V * ((cfg.resample : ℕ) : ℤ)) with hy
  have hy1 : 1 ≤ y := by
    obtain ⟨n, hdep⟩ : ∃ n, cfg.depth = n + 1 := ⟨cfg.depth - 1, by omega⟩
    rw [hy, hdep, Function.iterate_succ_apply' (encIntLevel cfg)]
    exact encIntLevel_pos cfg _
  have hchain : (decIntStep cfg.kernel_conv cfg.stride_conv)^[cfg.depth] y
      = V * ((cfg.resample : ℕ) : ℤ) := by
    rw [hy, hVdef]
    exact validLength_exact_chain cfg hkg hsg hsc hkc hr1 hrs hrk hd (L : ℤ)
  have hiterpos : ∀ j, 1 ≤ (decIntStep cfg.kernel_conv cfg.stride_conv)^[j] y :=
    fun j => decIntStep_iter_pos _ _ hkc j y hy1
  have hTcast : ((Vn * cfg.resample : ℕ) : ℤ) = V * ((cfg.resample : ℕ) : ℤ) := by
    push_cast [hVn]
    rw [Int.toNat_of_nonneg hV0]
  have hTeq : (V * ((cfg.resample : ℕ) : ℤ)).toNat = cfg.resample * Vn := by
    rw [← hTcast, Int.toNat_natCast, Nat.mul_comm]
  set u : ℕ → ℕ := fun m => (encTimeStep cfg)^[m] (cfg.resample * Vn) with hu
  have hukey : ∀ m, m ≤ cfg.depth →
      u m = ((decIntStep cfg.kernel_conv cfg.stride_conv)^[cfg.depth - m] y).toNat := by
    intro m
    induction m with
    | zero =>
        intro _
        show (encTimeStep cfg)^[0] (cfg.resample * Vn) = _
        simp only [Function.iterate_zero, id_eq, Nat.sub_zero]
        rw [hchain]
        exact hTeq.symm
    | succ m ih =>
        intro hm
        have ihm : (encTimeStep cfg)^[m] (cfg.resample * Vn) =
            ((decIntStep cfg.kernel_conv cfg.stride_conv)^[cfg.depth - m] y).toNat :=
          ih (by omega)
        show (encTimeStep cfg)^[m + 1] (cfg.resample * Vn) = _
        rw [Function.iterate_succ_apply' (encTimeStep cfg), ihm,
          show cfg.depth - m = (cfg.depth - (m + 1)) + 1 by omega,
          Function.iterate_succ_apply' (decIntStep cfg.kernel_conv cfg.stride_conv)]
        exact encTimeStep_exact cfg hkg hsg hsc _ (hiterpos _)
  have hstepu : ∀ i, i < cfg.depth → decTimeStep cfg (u (i + 1)) = u i := by
    intro i hi
    rw [hukey (i + 1) (by omega), hukey i (by omega),
      show cfg.depth - i = (cfg.depth - (i + 1)) + 1 by omega,
      Function.iterate_succ_apply' (decIntStep cfg.kernel_conv cfg.stride_conv)]
    exact decTimeStep_exact cfg hkg hsg _ (hiterpos _)
  -- encoder loop
  obtain ⟨fenc, hencEq, hencSpec⟩ := encoder_spec_of_build cfg iw hwf
  rw [List.range_eq_range'] at hencEq
  have hencIn : HasShape (forwardPrep (demucsBuild cfg iw) ex0) (encInC cfg 0)
      (cfg.resample * Vn) := by
    rw [show encInC cfg 0 = 1 from rfl]
    exact hT
  have hencode := encodeLoop_shape cfg fenc hencSpec hch cfg.depth 0 (by omega)
    (forwardPrep (demucsBuild cfg iw) ex0) (cfg.resample * Vn) hencIn
  have hencfin : HasShape
      (encodeLoop ((List.range' 0 cfg.depth).map fenc)
        (forwardPrep (demucsBuild cfg iw) ex0)).2
      (natCh cfg (cfg.depth - 1)) (u cfg.depth) := by
    have := hencode.1
    rw [show (0 : ℕ) + cfg.depth = cfg.depth by omega] at this
    rw [show encInC cfg cfg.depth = natCh cfg (cfg.depth - 1) by
      unfold encInC; rw [if_neg (by omega)]] at this
    exact this
  have hctfin : chTime (encodeLoop ((List.range' 0 cfg.depth).map fenc)
      (forwardPrep (demucsBuild cfg iw) ex0)).2 = u cfg.depth :=
    chTime_of_shape hencfin (hch _ (by omega))
  -- bottleneck
  have hb := bottleneckApply_shape (encCh cfg) (demucsBuild cfg iw).rnn
    (demucsBuild cfg iw).lin
    (encodeLoop ((List.range' 0 cfg.depth).map fenc)
      (forwardPrep (demucsBuild cfg iw) ex0)).2
  rw [hctfin] at hb
  nth_rewrite 2 [encCh_eq cfg hd] at hb
  -- decoder loop
  obtain ⟨fdec, hdecEq, hdecSpec⟩ := decoder_spec_of_build cfg iw hch hwf
  rw [List.range_eq_range'] at hdecEq
  have hdecode := decodeLoop_shape cfg fdec hdecSpec hch u hstepu cfg.depth 0
    (by omega)
    (bottleneckApply (encCh cfg) (demucsBuild cfg iw).rnn (demucsBuild cfg iw).lin
      (encodeLoop ((List.range' 0 cfg.depth).map fenc)
        (forwardPrep (demucsBuild cfg iw) ex0)).2)
    ((encodeLoop ((List.range' 0 cfg.depth).map fenc)
      (forwardPrep (demucsBuild cfg iw) ex0)).1.reverse)
    (by
      rw [show cfg.depth - 0 = cfg.depth by omega,
        show decOutC cfg cfg.depth = natCh cfg (cfg.depth - 1) by
          unfold decOutC; rw [if_neg (by omega)]]
      exact hb)
    (by rw [List.length_reverse]; exact hencode.2.1)
    (by
      intro m hm
      have hlen := hencode.2.1
      rw [getD_reverse _ _ m (by omega)]
      rw [hlen]
      have := hencode.2.2 (cfg.depth - 1 - m) (by omega)
      rw [show (0 : ℕ) + (cfg.depth - 1 - m) = cfg.depth - 1 - m by omega] at this
      rw [show cfg.depth - 1 - 0 - m = cfg.depth - 1 - m by omega,
        show cfg.depth - 0 - m = (cfg.depth - 1 - m) + 1 by omega]
      exact this)
  rw [show cfg.depth - 0 - cfg.depth = 0 by omega,
    show decOutC cfg 0 = 1 from rfl] at hdecode
  have hcore : HasShape (forwardCore (demucsBuild cfg iw) ex0) 1
      (cfg.resample * Vn) := by
    show HasShape
      (decodeLoop (demucsBuild cfg iw).decoder
        (encodeLoop (demucsBuild cfg iw).encoder
          (forwardPrep (demucsBuild cfg iw) ex0)).1.reverse
        (bottleneckApply (encCh cfg) (demucsBuild cfg iw).rnn
          (demucsBuild cfg iw).lin
          (encodeLoop (demucsBuild cfg iw).encoder
            (forwardPrep (demucsBuild cfg iw) ex0)).2)) 1 (cfg.resample * Vn)
    rw [hencEq, hdecEq]
    have hu0 : u (cfg.depth - 0) = u cfg.depth := by
      rw [show cfg.depth - 0 = cfg.depth by omega]
    have hu00 : u 0 = cfg.resample * Vn := by rw [hu]; rfl
    rw [← hu00]
    exact hdecode
  have hdown : HasShape (resampleDown cfg.resample
      (forwardCore (demucsBuild cfg iw) ex0)) 1 Vn :=
    resampleDown_shape cfg.resample hr hcore
  show HasShape ((resampleDown cfg.resample
      (forwardCore (demucsBuild cfg iw) ex0)).map
    (fun c => (c.take (chTime (mixdown ex0))).map
      (fun a => normStd cfg (mixdown ex0) * a))) 1 L
  rw [hLr]
  constructor
  · rw [List.length_map]
    exact hdown.1
  · intro ch hch'
    rw [List.mem_map] at hch'
    obtain ⟨c0, hc0, rfl⟩ := hch'
    rw [List.length_map, List.length_take, hdown.2 c0 hc0]
    omega

lemma natCh_growth_one (cfg : Cfg) (hg : cfg.growth = 1) (i : ℕ) :
    natCh cfg i = cfg.hidden_dim * 2 ^ i := by
  unfold natCh pyInt
  rw [hg, mul_one]
  have hq : ((cfg.hidden_dim : ℕ) : ℚ) * (2 : ℚ) ^ i
      = ((cfg.hidden_dim * 2 ^ i : ℕ) : ℚ) := by
    push_cast
    ring
  rw [hq, if_pos (by positivity), Int.floor_natCast]
  exact Int.toNat_natCast _

/-- C1 (amended): for every model built with `kernel_glu = 1` and
`stride_glu = 1` (the source defaults, making the gated stage
length-preserving) whose resample factor lies in `{1,2,4}` and divides
both `stride_conv` and `kernel_conv` (true of the default 4/8 geometry),
with positive depth and channel counts, `forward` maps any batch of
`C ≥ 1`-channel signals of positive time length `L` to a batch of the
same size whose every example has exactly 1 channel and time length
exactly `L`.  As stated over all constructible models the claim fails
(see the counterexample with `stride_glu = 2`). -/
theorem forward_shape (cfg : Cfg) (iw : InitW) (M : DemucsM)
    (hM : demucsInit cfg iw = some M) (hwf : WfIW cfg iw)
    (hch : ∀ i, i < cfg.depth → 1 ≤ natCh cfg i)
    (hkg : cfg.kernel_glu = 1) (hsg : cfg.stride_glu = 1)
    (hsc : 1 ≤ cfg.stride_conv) (hkc : 1 ≤ cfg.kernel_conv)
    (hr : cfg.resample = 1 ∨ cfg.resample = 2 ∨ cfg.resample = 4)
    (hrs : cfg.resample ∣ cfg.stride_conv) (hrk : cfg.resample ∣ cfg.kernel_conv)
    (hd : 1 ≤ cfg.depth)
    (x : List (List (List ℝ))) (L : ℕ) (hL : 1 ≤ L)
    (hx : ∀ ex ∈ x, 1 ≤ ex.length ∧ ∀ c ∈ ex, c.length = L) :
    (forward M x).length = x.length ∧
      ∀ out ∈ forward M x, out.length = 1 ∧ ∀ c ∈ out, c.length = L := by
  obtain rfl := demucsInit_some_eq hM
  constructor
  · rw [forward, List.length_map]
  · intro out hout
    rw [forward, List.mem_map] at hout
    obtain ⟨ex0, hex0, rfl⟩ := hout
    have := forwardEx_shape cfg iw hwf hch hkg hsg hsc hkc hr hrs hrk hd ex0 L hL
      (hx ex0 hex0).1 (hx ex0 hex0).2
    exact ⟨this.1, this.2⟩

lemma wfIW_depth1 (cfg : Cfg) (hg : cfg.growth = 1) (hh : cfg.hidden_dim = 1)
    (hdep : cfg.depth = 1) : WfIW cfg iwW1 := by
  intro i hi
  have h0 : i = 0 := by omega
  subst h0
  have hn : natCh cfg 0 = 1 := by
    rw [natCh_growth_one cfg hg, hh]
    decide
  refine ⟨by rw [hn]; rfl, by rw [hn]; rfl, by rw [hn]; rfl, by rw [hn]; rfl, ?_⟩
  intro r hr
  rw [show iwW1.decConvW 0 = [[[0]]] from rfl, List.mem_singleton] at hr
  subst hr
  rfl

/-- Witness for the amended C1 at a concrete depth-1 configuration. -/
theorem forward_shape_witness :
    (forward (demucsBuild cfgW8 iwW1) [[[(0 : ℝ)]]]).length = 1 ∧
      ∀ out ∈ forward (demucsBuild cfgW8 iwW1) [[[(0 : ℝ)]]],
        out.length = 1 ∧ ∀ c ∈ out, c.length = 1 := by
  have h := forward_shape cfgW8 iwW1 (demucsBuild cfgW8 iwW1)
    (by unfold demucsInit; rw [if_pos]; exact Or.inl rfl)
    (wfIW_depth1 cfgW8 rfl rfl rfl)
    (by
      intro i hi
      have hd1 : cfgW8.depth = 1 := rfl
      have h0 : i = 0 := by omega
      subst h0
      rw [natCh_growth_one cfgW8 rfl]
      decide)
    rfl rfl (by decide) (by decide) (Or.inl rfl) (by decide) (by decide)
    (by decide) [[[(0 : ℝ)]]] 1 (by decide)
    (by
      intro ex hex
      rw [List.mem_singleton] at hex
      subst hex
      refine ⟨by decide, ?_⟩
      intro c hc
      rw [List.mem_singleton] at hc
      subst hc
      rfl)
  exact ⟨h.1.trans rfl, h.2⟩

/-- C1 counterexample: the claim quantifies over every model with
`resample ∈ {1,2,4}`, but with `stride_glu = 2` (a constructible
configuration) a batch of one 1-channel, length-2 signal comes back with
time length 1, not 2: the output time length is not the input length. -/
theorem forward_shape_cfgC1_counterexample :
    ¬ (∀ out ∈ forward (demucsBuild cfgC1 iwW1) [[[(0 : ℝ), 0]]],
        ∀ c ∈ out, c.length = 2) := by
  intro hclaim
  -- shape bookkeeping for this concrete run
  have hg : natCh cfgC1 0 = 1 := by
    rw [natCh_growth_one cfgC1 rfl]
    decide
  have hch : ∀ i, i < cfgC1.depth → 1 ≤ natCh cfgC1 i := by
    intro i hi
    have hd1 : cfgC1.depth = 1 := rfl
    have h0 : i = 0 := by omega
    subst h0
    omega
  have hwf : WfIW cfgC1 iwW1 := wfIW_depth1 cfgC1 rfl rfl rfl
  have hmix : HasShape (mixdown [[(0 : ℝ), 0]]) 1 2 := by
    refine mixdown_shape ⟨rfl, ?_⟩ (by decide)
    intro c hc
    rw [List.mem_singleton] at hc
    subst hc
    rfl
  have hLr : chTime (mixdown [[(0 : ℝ), 0]]) = 2 := chTime_of_shape hmix (by omega)
  have hV : validLength cfgC1 (2 : ℤ) = 2 := by decide
  have hnorm : normSig cfgC1 (mixdown [[(0 : ℝ), 0]]) = mixdown [[(0 : ℝ), 0]] := by
    unfold normSig
    rw [if_neg (by decide)]
  have hpad : HasShape ((normSig cfgC1 (mixdown [[(0 : ℝ), 0]])).map (padTo 2)) 1 2 := by
    rw [hnorm]
    have := padTo_shape hmix (2 : ℤ)
    simpa using this
  have hprep : HasShape (forwardPrep (demucsBuild cfgC1 iwW1) [[(0 : ℝ), 0]]) 1 2 := by
    show HasShape (resampleUp cfgC1.resample
      ((normSig cfgC1 (mixdown [[(0 : ℝ), 0]])).map
        (padTo (validLength cfgC1 (chTime (mixdown [[(0 : ℝ), 0]]) : ℤ))))) 1 2
    rw [hLr]
    show HasShape (resampleUp 1
      ((normSig cfgC1 (mixdown [[(0 : ℝ), 0]])).map (padTo (validLength cfgC1 2)))) 1 2
    rw [show validLength cfgC1 2 = 2 from hV,
      show resampleUp 1 ((normSig cfgC1 (mixdown [[(0 : ℝ), 0]])).map (padTo 2)) =
        (normSig cfgC1 (mixdown [[(0 : ℝ), 0]])).map (padTo 2) from rfl]
    exact hpad
  have hspecE : EncBlockSpec cfgC1 0 (buildEncBlock cfgC1 iwW1 0) :=
    encBlockSpec_build cfgC1 iwW1 0 (by decide) hwf
  have hencB : HasShape (encBlockApply (buildEncBlock cfgC1 iwW1 0)
      (forwardPrep (demucsBuild cfgC1 iwW1) [[(0 : ℝ), 0]])) 1 1 := by
    have := encBlockApply_shape hspecE
      (x := forwardPrep (demucsBuild cfgC1 iwW1) [[(0 : ℝ), 0]]) (t := 2)
      (by rw [show encInC cfgC1 0 = 1 from rfl]; exact hprep)
      (by rw [show encInC cfgC1 0 = 1 from rfl]) (by omega)
    rw [hg, show encTimeStep cfgC1 2 = 1 from by decide] at this
    exact this
  have hencEq : (demucsBuild cfgC1 iwW1).encoder = [buildEncBlock cfgC1 iwW1 0] := by
    simp only [demucsBuild]
    rw [if_neg (not_not_intro (rfl : cfgC1.rescale = 0) : ¬ cfgC1.rescale ≠ 0)]
    rfl
  have hdecEq : (demucsBuild cfgC1 iwW1).decoder = [buildDecBlock cfgC1 iwW1 0] := by
    simp only [demucsBuild]
    rw [if_neg (not_not_intro (rfl : cfgC1.rescale = 0) : ¬ cfgC1.rescale ≠ 0)]
    rfl
  have hencLoop : encodeLoop (demucsBuild cfgC1 iwW1).encoder
      (forwardPrep (demucsBuild cfgC1 iwW1) [[(0 : ℝ), 0]]) =
      ([encBlockApply (buildEncBlock cfgC1 iwW1 0)
          (forwardPrep (demucsBuild cfgC1 iwW1) [[(0 : ℝ), 0]])],
        encBlockApply (buildEncBlock cfgC1 iwW1 0)
          (forwardPrep (demucsBuild cfgC1 iwW1) [[(0 : ℝ), 0]])) := by
    rw [hencEq]
    rfl
  have hencCh : encCh cfgC1 = 1 := by
    rw [encCh_eq cfgC1 (by decide)]
    exact hg
  have hbshape : HasShape (bottleneckApply (encCh cfgC1)
      (demucsBuild cfgC1 iwW1).rnn (demucsBuild cfgC1 iwW1).lin
      (encBlockApply (buildEncBlock cfgC1 iwW1 0)
        (forwardPrep (demucsBuild cfgC1 iwW1) [[(0 : ℝ), 0]]))) 1 1 := by
    have := bottleneckApply_shape (encCh cfgC1) (demucsBuild cfgC1 iwW1).rnn
      (demucsBuild cfgC1 iwW1).lin
      (encBlockApply (buildEncBlock cfgC1 iwW1 0)
        (forwardPrep (demucsBuild cfgC1 iwW1) [[(0 : ℝ), 0]]))
    nth_rewrite 2 [hencCh] at this
    rw [chTime_of_shape hencB (by omega)] at this
    exact this
  have hspecD : DecBlockSpec cfgC1 0 (buildDecBlock cfgC1 iwW1 0) :=
    decBlockSpec_build cfgC1 iwW1 0 (by decide) (by omega) hwf
  have hadd : HasShape (addTrim (bottleneckApply (encCh cfgC1)
      (demucsBuild cfgC1 iwW1).rnn (demucsBuild cfgC1 iwW1).lin
      (encBlockApply (buildEncBlock cfgC1 iwW1 0)
        (forwardPrep (demucsBuild cfgC1 iwW1) [[(0 : ℝ), 0]])))
      (encBlockApply (buildEncBlock cfgC1 iwW1 0)
        (forwardPrep (demucsBuild cfgC1 iwW1) [[(0 : ℝ), 0]]))) 1 1 :=
    addTrim_shape hbshape hencB (by omega) le_rfl
  have hadd1 : HasShape (addTrim (bottleneckApply (encCh cfgC1)
      (demucsBuild cfgC1 iwW1).rnn (demucsBuild cfgC1 iwW1).lin
      (encBlockApply (buildEncBlock cfgC1 iwW1 0)
        (forwardPrep (demucsBuild cfgC1 iwW1) [[(0 : ℝ), 0]])))
      (encBlockApply (buildEncBlock cfgC1 iwW1 0)
        (forwardPrep (demucsBuild cfgC1 iwW1) [[(0 : ℝ), 0]])))
      (natCh cfgC1 0) 1 := by
    rw [hg]
    exact hadd
  have hdecB : HasShape (decBlockApply (buildDecBlock cfgC1 iwW1 0)
      (addTrim (bottleneckApply (encCh cfgC1)
        (demucsBuild cfgC1 iwW1).rnn (demucsBuild cfgC1 iwW1).lin
        (encBlockApply (buildEncBlock cfgC1 iwW1 0)
          (forwardPrep (demucsBuild cfgC1 iwW1) [[(0 : ℝ), 0]])))
        (encBlockApply (buildEncBlock cfgC1 iwW1 0)
          (forwardPrep (demucsBuild cfgC1 iwW1) [[(0 : ℝ), 0]])))) 1 1 := by
    have := decBlockApply_shape hspecD hadd1 hg.ge
    rw [show decOutC cfgC1 0 = 1 from rfl,
      show decTimeStep cfgC1 1 = 1 from by decide] at this
    exact this
  have hcore : HasShape (forwardCore (demucsBuild cfgC1 iwW1) [[(0 : ℝ), 0]]) 1 1 := by
    show HasShape (decodeLoop (demucsBuild cfgC1 iwW1).decoder
      (encodeLoop (demucsBuild cfgC1 iwW1).encoder
        (forwardPrep (demucsBuild cfgC1 iwW1) [[(0 : ℝ), 0]])).1.reverse
      (bottleneckApply (encCh cfgC1) (demucsBuild cfgC1 iwW1).rnn
        (demucsBuild cfgC1 iwW1).lin
        (encodeLoop (demucsBuild cfgC1 iwW1).encoder
          (forwardPrep (demucsBuild cfgC1 iwW1) [[(0 : ℝ), 0]])).2)) 1 1
    rw [hdecEq, hencLoop]
    show HasShape (decodeLoop [] [] (decBlockApply (buildDecBlock cfgC1 iwW1 0)
      (addTrim _ ((([encBlockApply (buildEncBlock cfgC1 iwW1 0)
        (forwardPrep (demucsBuild cfgC1 iwW1) [[(0 : ℝ), 0]])].reverse)).headD [])))) 1 1
    rw [show ([encBlockApply (buildEncBlock cfgC1 iwW1 0)
        (forwardPrep (demucsBuild cfgC1 iwW1) [[(0 : ℝ), 0]])].reverse).headD [] =
      encBlockApply (buildEncBlock cfgC1 iwW1 0)
        (forwardPrep (demucsBuild cfgC1 iwW1) [[(0 : ℝ), 0]]) from rfl]
    show HasShape (decBlockApply (buildDecBlock cfgC1 iwW1 0)
      (addTrim (bottleneckApply (encCh cfgC1)
        (demucsBuild cfgC1 iwW1).rnn (demucsBuild cfgC1 iwW1).lin
        (encBlockApply (buildEncBlock cfgC1 iwW1 0)
          (forwardPrep (demucsBuild cfgC1 iwW1) [[(0 : ℝ), 0]])))
        (encBlockApply (buildEncBlock cfgC1 iwW1 0)
          (forwardPrep (demucsBuild cfgC1 iwW1) [[(0 : ℝ), 0]])))) 1 1
    exact hdecB
  have hfinal : HasShape (forwardEx (demucsBuild cfgC1 iwW1) [[(0 : ℝ), 0]]) 1 1 := by
    show HasShape ((resampleDown cfgC1.resample
        (forwardCore (demucsBuild cfgC1 iwW1) [[(0 : ℝ), 0]])).map
      (fun c => (c.take (chTime (mixdown [[(0 : ℝ), 0]]))).map
        (fun a => normStd cfgC1 (mixdown [[(0 : ℝ), 0]]) * a))) 1 1
    rw [hLr, show resampleDown cfgC1.resample
        (forwardCore (demucsBuild cfgC1 iwW1) [[(0 : ℝ), 0]]) =
      forwardCore (demucsBuild cfgC1 iwW1) [[(0 : ℝ), 0]] from rfl]
    constructor
    · rw [List.length_map]
      exact hcore.1
    · intro ch hchm
      rw [List.mem_map] at hchm
      obtain ⟨c0, hc0, rfl⟩ := hchm
      rw [List.length_map, List.length_take, hcore.2 c0 hc0]
      omega
  obtain ⟨c0, hc0⟩ : ∃ c0, forwardEx (demucsBuild cfgC1 iwW1) [[(0 : ℝ), 0]] = [c0] :=
    List.length_eq_one.mp hfinal.1
  have hmem : forwardEx (demucsBuild cfgC1 iwW1) [[(0 : ℝ), 0]] ∈
      forward (demucsBuild cfgC1 iwW1) [[[(0 : ℝ), 0]]] := by
    rw [forward]
    exact List.mem_map_of_mem _ (List.mem_singleton.mpr rfl)
  have h2 := hclaim _ hmem c0 (by rw [hc0]; exact List.mem_singleton.mpr rfl)
  have h1 : c0.length = 1 := hfinal.2 c0 (by rw [hc0]; exact List.mem_singleton.mpr rfl)
  omega

/-!
C6: the decoder-loop slice `skip[..., :x.shape[-1]]` (demucs.py line 332).
The invariant rests on one inequality: for odd `kernel_glu` (where the
`kernel_glu // 2` padding makes the gated stage behave like an unpadded
stride-`stride_glu` map on `length - 1`), a decoder block can never
produce more frames than the matching encoder block consumed.
-/

lemma convLen_mono (k s : ℕ) {a b : ℕ} (h : a ≤ b) :
    convLen k s a ≤ convLen k s b := by
  unfold convLen
  by_cases ha : a < k
  · rw [if_pos ha]
    exact Nat.zero_le _
  · rw [if_neg ha, if_neg (by omega)]
    exact Nat.add_le_add_right (Nat.div_le_div_right (by omega)) 1

lemma gluTime_mono (cfg : Cfg) {a b : ℕ} (h : a ≤ b) :
    gluTime cfg a ≤ gluTime cfg b :=
  convLen_mono _ _ (by omega)

lemma tlenT_mono (k s : ℕ) {a b : ℕ} (h : a ≤ b) : tlenT k s a ≤ tlenT k s b := by
  unfold tlenT
  by_cases ha : a = 0
  · rw [if_pos ha]
    exact Nat.zero_le _
  · rw [if_neg ha, if_neg (by omega)]
    exact Nat.add_le_add_right (Nat.mul_le_mul_right s (by omega)) k

lemma decTimeStep_mono (cfg : Cfg) {a b : ℕ} (h : a ≤ b) :
    decTimeStep cfg a ≤ decTimeStep cfg b :=
  tlenT_mono _ _ (gluTime_mono cfg h)

/-- With `kernel_glu` odd, the padding `kernel_glu / 2` on both sides makes
the gated stage the map `n ↦ (n - 1) / stride_glu + 1` (and `0 ↦ 0`). -/
lemma gluTime_odd (cfg : Cfg) (hkg : cfg.kernel_glu % 2 = 1) (n : ℕ) :
    gluTime cfg n = if n = 0 then 0 else (n - 1) / cfg.stride_glu + 1 := by
  have hk1 : 1 ≤ cfg.kernel_glu := by omega
  unfold gluTime convLen
  rw [show 2 * (cfg.kernel_glu / 2) = cfg.kernel_glu - 1 by omega]
  by_cases hn : n = 0
  · rw [if_pos hn, if_pos (by omega)]
  · rw [if_neg hn, if_neg (by omega),
      show n + (cfg.kernel_glu - 1) - cfg.kernel_glu = n - 1 by omega]

/-- The key C6 inequality: with `kernel_glu` odd, a decoder block maps the
output length of the matching encoder block to at most the encoder
block's input length. -/
lemma dec_enc_le (cfg : Cfg) (hkg : cfg.kernel_glu % 2 = 1) (t : ℕ) :
    decTimeStep cfg (encTimeStep cfg t) ≤ t := by
  unfold decTimeStep encTimeStep encConvTime
  by_cases he : convLen cfg.kernel_conv cfg.stride_conv t = 0
  · have hglu0 : gluTime cfg 0 = 0 := by
      rw [gluTime_odd cfg hkg 0, if_pos rfl]
    rw [he, hglu0, hglu0]
    unfold tlenT
    rw [if_pos rfl]
    exact Nat.zero_le t
  · set e := convLen cfg.kernel_conv cfg.stride_conv t with hedef
    have htk : cfg.kernel_conv ≤ t := by
      by_contra hlt
      apply he
      rw [hedef, convLen, if_pos (by omega)]
    have heval : e = (t - cfg.kernel_conv) / cfg.stride_conv + 1 := by
      rw [hedef, convLen, if_neg (by omega)]
    rw [gluTime_odd cfg hkg e, if_neg he,
      gluTime_odd cfg hkg ((e - 1) / cfg.stride_glu + 1),
      if_neg (Nat.succ_ne_zero _)]
    unfold tlenT
    rw [if_neg (Nat.succ_ne_zero _)]
    simp only [Nat.add_sub_cancel]
    have h1 : (e - 1) / cfg.stride_glu / cfg.stride_glu ≤ e - 1 :=
      le_trans (Nat.div_le_self _ _) (Nat.div_le_self _ _)
    have h2 : (e - 1) * cfg.stride_conv ≤ t - cfg.kernel_conv := by
      have hx : e - 1 = (t - cfg.kernel_conv) / cfg.stride_conv := by
        rw [heval, Nat.add_sub_cancel]
      rw [hx]
      exact Nat.div_mul_le_self _ _
    calc (e - 1) / cfg.stride_glu / cfg.stride_glu * cfg.stride_conv + cfg.kernel_conv
        ≤ (e - 1) * cfg.stride_conv + cfg.kernel_conv :=
          Nat.add_le_add_right (Nat.mul_le_mul_right _ h1) _
      _ ≤ (t - cfg.kernel_conv) + cfg.kernel_conv := Nat.add_le_add_right h2 _
      _ = t := by omega

/-- The decoder-loop invariant underlying C6: when the skips (most recent
first) carry the pyramid's channel counts, their time lengths step by
`encTimeStep` toward the front, and the current tensor is no longer than
the first skip, every pair compared by line 332's slice stays ordered
(odd `kernel_glu`). -/
lemma decodePairs_le (cfg : Cfg) (fdec : ℕ → DecBlock)
    (hbd : ∀ i, i < cfg.depth → DecBlockSpec cfg (cfg.depth - i - 1) (fdec i))
    (hch : ∀ i, i < cfg.depth → 1 ≤ natCh cfg i)
    (hkg : cfg.kernel_glu % 2 = 1) :
    ∀ (cnt j : ℕ), j + cnt = cfg.depth → ∀ (T : ℕ → ℕ) (x : List (List ℝ))
      (sk : List (List (List ℝ))) (v : ℕ),
      HasShape x (decOutC cfg (cfg.depth - j)) v →
      sk.length = cnt →
      (∀ m, m < cnt → HasShape (sk.getD m [])
        (natCh cfg (cfg.depth - 1 - j - m)) (T m)) →
      (∀ m, m + 1 < cnt → T m = encTimeStep cfg (T (m + 1))) →
      (1 ≤ cnt → v ≤ T 0) →
      ∀ pr ∈ decodePairs ((List.range' j cnt).map fdec) sk x, pr.1 ≤ pr.2 := by
  intro cnt
  induction cnt with
  | zero =>
      intro j hj T x sk v hx hsklen hsk hT hv pr hpr
      exact absurd hpr (List.not_mem_nil pr)
  | succ cnt ih =>
      intro j hj T x sk v hx hsklen hsk hT hv pr hpr
      have hjd : j < cfg.depth := by omega
      obtain ⟨s0, sk', rfl⟩ : ∃ s0 sk', sk = s0 :: sk' := by
        cases sk with
        | nil => simp at hsklen
        | cons a b => exact ⟨a, b, rfl⟩
      have hs0 : HasShape s0 (natCh cfg (cfg.depth - 1 - j)) (T 0) := by
        have := hsk 0 (by omega)
        simpa using this
      have hxch : decOutC cfg (cfg.depth - j) = natCh cfg (cfg.depth - 1 - j) := by
        unfold decOutC
        rw [if_neg (by omega), show cfg.depth - j - 1 = cfg.depth - 1 - j by omega]
      have hcpos : 1 ≤ natCh cfg (cfg.depth - 1 - j) := hch _ (by omega)
      have hvT : v ≤ T 0 := hv (by omega)
      have hxs : HasShape x (natCh cfg (cfg.depth - 1 - j)) v := by
        rw [hxch] at hx
        exact hx
      have hadd : HasShape (addTrim x s0) (natCh cfg (cfg.depth - 1 - j)) v :=
        addTrim_shape hxs hs0 hcpos hvT
      have hspec : DecBlockSpec cfg (cfg.depth - 1 - j) (fdec j) := by
        have := hbd j hjd
        rwa [show cfg.depth - j - 1 = cfg.depth - 1 - j by omega] at this
      have hblock0 := decBlockApply_shape hspec hadd hcpos
      have hblock : HasShape (decBlockApply (fdec j) (addTrim x s0))
          (decOutC cfg (cfg.depth - (j + 1))) (decTimeStep cfg v) := by
        rw [show cfg.depth - (j + 1) = cfg.depth - 1 - j by omega]
        exact hblock0
      have hres := ih (j + 1) (by omega) (fun m => T (m + 1))
        (decBlockApply (fdec j) (addTrim x s0)) sk' (decTimeStep cfg v)
        hblock (by simpa using hsklen)
        (by
          intro m hm
          have := hsk (m + 1) (by omega)
          rw [show cfg.depth - 1 - j - (m + 1) = cfg.depth - 1 - (j + 1) - m by omega]
            at this
          simpa using this)
        (by
          intro m hm
          exact hT (m + 1) (by omega))
        (by
          intro hc1
          calc decTimeStep cfg v ≤ decTimeStep cfg (T 0) := decTimeStep_mono cfg hvT
            _ = decTimeStep cfg (encTimeStep cfg (T 1)) := by rw [hT 0 (by omega)]
            _ ≤ T 1 := dec_enc_le cfg hkg (T 1))
      rw [List.range'_succ, List.map_cons] at hpr
      simp only [decodePairs, List.headD_cons, List.tail_cons] at hpr
      rcases List.mem_cons.mp hpr with heq | hmem
      · subst heq
        show chTime x ≤ chTime s0
        rw [chTime_of_shape hxs hcpos, chTime_of_shape hs0 hcpos]
        exact hvT
      · exact hres pr hmem

/-- C6 (amended): with `kernel_glu` odd (true of the source default 1,
where the `kernel_glu // 2` padding cannot lengthen the gated stage), in
every forward call each decoder level's current time length is at most
the popped skip's time length, so `skip[..., :x.shape[-1]]` is a
truncation and never requires padding.  As stated over every
constructible model the claim fails: even `kernel_glu` pads each gated
stage, and the decoder then outgrows its skips (see the counterexample). -/
theorem skip_trim_truncation (cfg : Cfg) (iw : InitW) (M : DemucsM)
    (hM : demucsInit cfg iw = some M) (hwf : WfIW cfg iw)
    (hch : ∀ i, i < cfg.depth → 1 ≤ natCh cfg i)
    (hkg : cfg.kernel_glu % 2 = 1)
    (ex0 : List (List ℝ)) (L : ℕ)
    (hex0 : 1 ≤ ex0.length) (hexc : ∀ c ∈ ex0, c.length = L) :
    ∀ pr ∈ forwardPairs M ex0, pr.1 ≤ pr.2 := by
  have hr : cfg.resample = 1 ∨ cfg.resample = 2 ∨ cfg.resample = 4 := by
    by_contra h
    unfold demucsInit at hM
    rw [if_neg h] at hM
    cases hM
  obtain rfl := demucsInit_some_eq hM
  by_cases hd0 : cfg.depth = 0
  · intro pr hpr
    obtain ⟨fdec, hdecEq, _⟩ := decoder_spec_of_build cfg iw hch hwf
    rw [List.range_eq_range'] at hdecEq
    unfold forwardPairs at hpr
    rw [hdecEq, hd0] at hpr
    exact absurd hpr (List.not_mem_nil pr)
  · have hd : 1 ≤ cfg.depth := by omega
    have hmix : HasShape (mixdown ex0) 1 L := mixdown_shape ⟨rfl, hexc⟩ hex0
    have hLr : chTime (mixdown ex0) = L := chTime_of_shape hmix (by omega)
    set V : ℤ := validLength cfg (L : ℤ) with hVdef
    set Vn : ℕ := V.toNat with hVn
    have hnorm : HasShape (normSig cfg (mixdown ex0)) 1 L := by
      unfold normSig
      by_cases hn : cfg.normalize = true
      · rw [if_pos hn]
        exact map_map_shape hmix (fun c a => a / (1 / 1000 + stdDev c))
      · rw [if_neg hn]
        exact hmix
    have hpad : HasShape ((normSig cfg (mixdown ex0)).map (padTo V)) 1 Vn :=
      padTo_shape hnorm V
    have hT0 : HasShape (forwardPrep (demucsBuild cfg iw) ex0) 1
        (cfg.resample * Vn) := by
      show HasShape (resampleUp cfg.resample
        ((normSig cfg (mixdown ex0)).map
          (padTo (validLength cfg (chTime (mixdown ex0) : ℤ))))) 1
        (cfg.resample * Vn)
      rw [hLr]
      exact resampleUp_shape cfg.resample hr hpad
    obtain ⟨fenc, hencEq, hencSpec⟩ := encoder_spec_of_build cfg iw hwf
    rw [List.range_eq_range'] at hencEq
    have hencIn : HasShape (forwardPrep (demucsBuild cfg iw) ex0) (encInC cfg 0)
        (cfg.resample * Vn) := by
      rw [show encInC cfg 0 = 1 from rfl]
      exact hT0
    have hencode := encodeLoop_shape cfg fenc hencSpec hch cfg.depth 0 (by omega)
      (forwardPrep (demucsBuild cfg iw) ex0) (cfg.resample * Vn) hencIn
    have hencfin : HasShape
        (encodeLoop ((List.range' 0 cfg.depth).map fenc)
          (forwardPrep (demucsBuild cfg iw) ex0)).2
        (natCh cfg (cfg.depth - 1))
        ((encTimeStep cfg)^[cfg.depth] (cfg.resample * Vn)) := by
      have := hencode.1
      rw [show (0 : ℕ) + cfg.depth = cfg.depth by omega] at this
      rw [show encInC cfg cfg.depth = natCh cfg (cfg.depth - 1) by
        unfold encInC; rw [if_neg (by omega)]] at this
      exact this
    have hctfin : chTime (encodeLoop ((List.range' 0 cfg.depth).map fenc)
        (forwardPrep (demucsBuild cfg iw) ex0)).2
        = (encTimeStep cfg)^[cfg.depth] (cfg.resample * Vn) :=
      chTime_of_shape hencfin (hch _ (by omega))
    have hb := bottleneckApply_shape (encCh cfg) (demucsBuild cfg iw).rnn
      (demucsBuild cfg iw).lin
      (encodeLoop ((List.range' 0 cfg.depth).map fenc)
        (forwardPrep (demucsBuild cfg iw) ex0)).2
    rw [hctfin] at hb
    nth_rewrite 2 [encCh_eq cfg hd] at hb
    obtain ⟨fdec, hdecEq, hdecSpec⟩ := decoder_spec_of_build cfg iw hch hwf
    rw [List.range_eq_range'] at hdecEq
    intro pr hpr
    unfold forwardPairs at hpr
    rw [hencEq, hdecEq] at hpr
    refine decodePairs_le cfg fdec hdecSpec hch hkg cfg.depth 0 (by omega)
      (fun m => (encTimeStep cfg)^[cfg.depth - m] (cfg.resample * Vn))
      _ _ ((encTimeStep cfg)^[cfg.depth] (cfg.resample * Vn))
      ?_ ?_ ?_ ?_ ?_ pr hpr
    · rw [show cfg.depth - 0 = cfg.depth by omega,
        show decOutC cfg cfg.depth = natCh cfg (cfg.depth - 1) by
          unfold decOutC; rw [if_neg (by omega)]]
      exact hb
    · rw [List.length_reverse]
      exact hencode.2.1
    · intro m hm
      show HasShape (((encodeLoop ((List.range' 0 cfg.depth).map fenc)
          (forwardPrep (demucsBuild cfg iw) ex0)).1.reverse).getD m [])
        (natCh cfg (cfg.depth - 1 - 0 - m))
        ((encTimeStep cfg)^[cfg.depth - m] (cfg.resample * Vn))
      have hlen := hencode.2.1
      rw [getD_reverse _ _ m (by omega), hlen]
      have := hencode.2.2 (cfg.depth - 1 - m) (by omega)
      rw [show (0 : ℕ) + (cfg.depth - 1 - m) = cfg.depth - 1 - m by omega] at this
      rw [show cfg.depth - 1 - 0 - m = cfg.depth - 1 - m by omega,
        show cfg.depth - m = (cfg.depth - 1 - m) + 1 by omega]
      exact this
    · intro m hm
      show (encTimeStep cfg)^[cfg.depth - m] (cfg.resample * Vn)
        = encTimeStep cfg ((encTimeStep cfg)^[cfg.depth - (m + 1)] (cfg.resample * Vn))
      rw [show cfg.depth - m = (cfg.depth - (m + 1)) + 1 by omega,
        Function.iterate_succ_apply' (encTimeStep cfg)]
    · intro hc1
      show (encTimeStep cfg)^[cfg.depth] (cfg.resample * Vn)
        ≤ (encTimeStep cfg)^[cfg.depth - 0] (cfg.resample * Vn)
      rw [Nat.sub_zero]

/-- Witness for the amended C6 at the depth-1 all-ones configuration:
the odd-kernel hypothesis holds and every compared pair is ordered. -/
theorem skip_trim_truncation_witness :
    cfgW8.kernel_glu % 2 = 1 ∧
      ∀ pr ∈ forwardPairs (demucsBuild cfgW8 iwW1) [[(0 : ℝ)]], pr.1 ≤ pr.2 := by
  refine ⟨by decide, ?_⟩
  exact skip_trim_truncation cfgW8 iwW1 (demucsBuild cfgW8 iwW1)
    (by unfold demucsInit; rw [if_pos]; exact Or.inl rfl)
    (wfIW_depth1 cfgW8 rfl rfl rfl)
    (by
      intro i hi
      have hd1 : cfgW8.depth = 1 := rfl
      have h0 : i = 0 := by omega
      subst h0
      rw [natCh_growth_one cfgW8 rfl]
      decide)
    (by decide)
    [[(0 : ℝ)]] 1 (by decide)
    (by
      intro c hc
      rw [List.mem_singleton] at hc
      subst hc
      rfl)

lemma natCh_cfgC6_zero : natCh cfgC6 0 = 1 := by
  rw [natCh_growth_one cfgC6 rfl]
  decide

lemma natCh_cfgC6_one : natCh cfgC6 1 = 2 := by
  rw [natCh_growth_one cfgC6 rfl]
  decide

lemma wfIW_C6 : WfIW cfgC6 iwC6 := by
  intro i hi
  have hd2 : cfgC6.depth = 2 := rfl
  have h01 : i = 0 ∨ i = 1 := by omega
  rcases h01 with rfl | rfl
  · refine ⟨by rw [natCh_cfgC6_zero]; rfl, by rw [natCh_cfgC6_zero]; rfl,
      by rw [natCh_cfgC6_zero]; rfl, by rw [natCh_cfgC6_zero]; rfl, ?_⟩
    intro r hr
    rw [show iwC6.decConvW 0 = [[[(0 : ℝ)]]] from rfl, List.mem_singleton] at hr
    subst hr
    rfl
  · refine ⟨by rw [natCh_cfgC6_one]; rfl, by rw [natCh_cfgC6_one]; rfl,
      by rw [natCh_cfgC6_one]; rfl, by rw [natCh_cfgC6_one]; rfl, ?_⟩
    intro r hr
    have hout1 : decOutC cfgC6 1 = 1 := by
      unfold decOutC
      rw [if_neg (by omega)]
      exact natCh_cfgC6_zero
    rw [show iwC6.decConvW 1 = [[[(0 : ℝ)]], [[0]]] from rfl] at hr
    rw [hout1]
    rcases List.mem_cons.mp hr with rfl | hr
    · rfl
    · rw [List.mem_singleton] at hr
      subst hr
      rfl

/-- C6 counterexample: with even `kernel_glu = 2` at depth 2 on a length-1
input, the second decoder level's input has time length 4 while its
popped skip has time length 2, so the compared pair is out of order and
line 332's slice would have to pad, not truncate. -/
theorem skip_trim_truncation_cfgC6_counterexample :
    ¬ (∀ pr ∈ forwardPairs (demucsBuild cfgC6 iwC6) [[(0 : ℝ)]], pr.1 ≤ pr.2) := by
  intro hclaim
  have hwf : WfIW cfgC6 iwC6 := wfIW_C6
  have hmix : HasShape (mixdown [[(0 : ℝ)]]) 1 1 := by
    refine mixdown_shape ⟨rfl, ?_⟩ (by decide)
    intro c hc
    rw [List.mem_singleton] at hc
    subst hc
    rfl
  have hLr : chTime (mixdown [[(0 : ℝ)]]) = 1 := chTime_of_shape hmix (by omega)
  have hV : validLength cfgC6 (1 : ℤ) = 1 := by decide
  have hnorm : normSig cfgC6 (mixdown [[(0 : ℝ)]]) = mixdown [[(0 : ℝ)]] := by
    unfold normSig
    rw [if_neg (by decide)]
  have hpad : HasShape ((normSig cfgC6 (mixdown [[(0 : ℝ)]])).map (padTo 1)) 1 1 := by
    rw [hnorm]
    have := padTo_shape hmix (1 : ℤ)
    simpa using this
  have hprep : HasShape prepC6 1 1 := by
    show HasShape (resampleUp cfgC6.resample
      ((normSig cfgC6 (mixdown [[(0 : ℝ)]])).map
        (padTo (validLength cfgC6 (chTime (mixdown [[(0 : ℝ)]]) : ℤ))))) 1 1
    rw [hLr]
    show HasShape (resampleUp 1
      ((normSig cfgC6 (mixdown [[(0 : ℝ)]])).map (padTo (validLength cfgC6 1)))) 1 1
    rw [show validLength cfgC6 1 = 1 from hV,
      show resampleUp 1 ((normSig cfgC6 (mixdown [[(0 : ℝ)]])).map (padTo 1)) =
        (normSig cfgC6 (mixdown [[(0 : ℝ)]])).map (padTo 1) from rfl]
    exact hpad
  have hspecE0 : EncBlockSpec cfgC6 0 (buildEncBlock cfgC6 iwC6 0) :=
    encBlockSpec_build cfgC6 iwC6 0 (by decide) hwf
  have hspecE1 : EncBlockSpec cfgC6 1 (buildEncBlock cfgC6 iwC6 1) :=
    encBlockSpec_build cfgC6 iwC6 1 (by decide) hwf
  have hy0 : HasShape y0C6 1 2 := by
    have := encBlockApply_shape hspecE0 (x := prepC6) (t := 1)
      (by rw [show encInC cfgC6 0 = 1 from rfl]; exact hprep)
      (by rw [show encInC cfgC6 0 = 1 from rfl])
      (by rw [natCh_cfgC6_zero])
    rw [natCh_cfgC6_zero, show encTimeStep cfgC6 1 = 2 from by decide] at this
    exact this
  have hy1 : HasShape y1C6 2 3 := by
    have := encBlockApply_shape hspecE1 (x := y0C6) (t := 2)
      (by rw [show encInC cfgC6 1 = natCh cfgC6 0 from rfl, natCh_cfgC6_zero]
          exact hy0)
      (by rw [show encInC cfgC6 1 = natCh cfgC6 0 from rfl, natCh_cfgC6_zero])
      (by rw [natCh_cfgC6_one]; omega)
    rw [natCh_cfgC6_one, show encTimeStep cfgC6 2 = 3 from by decide] at this
    exact this
  have hencCh : encCh cfgC6 = 2 := by
    rw [encCh_eq cfgC6 (by decide)]
    exact natCh_cfgC6_one
  have hy1t : chTime y1C6 = 3 := chTime_of_shape hy1 (by omega)
  have hbot : HasShape botC6 2 3 := by
    have := bottleneckApply_shape (encCh cfgC6) (demucsBuild cfgC6 iwC6).rnn
      (demucsBuild cfgC6 iwC6).lin y1C6
    nth_rewrite 2 [hencCh] at this
    rw [hy1t] at this
    exact this
  have hadd : HasShape (addTrim botC6 y1C6) 2 3 :=
    addTrim_shape hbot hy1 (by omega) (le_refl 3)
  have hspecD1 : DecBlockSpec cfgC6 1 (buildDecBlock cfgC6 iwC6 1) :=
    decBlockSpec_build cfgC6 iwC6 1 (by decide) (by rw [natCh_cfgC6_one]; omega) hwf
  have hx1 : HasShape x1C6 1 4 := by
    have := decBlockApply_shape hspecD1 (x := addTrim botC6 y1C6) (t := 3)
      (by rw [natCh_cfgC6_one]; exact hadd)
      (by rw [natCh_cfgC6_one]; omega)
    rw [show decOutC cfgC6 1 = 1 from by
        unfold decOutC; rw [if_neg (by omega)]; exact natCh_cfgC6_zero,
      show decTimeStep cfgC6 3 = 4 from by decide] at this
    exact this
  have hencEq : (demucsBuild cfgC6 iwC6).encoder =
      [buildEncBlock cfgC6 iwC6 0, buildEncBlock cfgC6 iwC6 1] := by
    simp only [demucsBuild]
    rw [if_neg (not_not_intro (rfl : cfgC6.rescale = 0) : ¬ cfgC6.rescale ≠ 0)]
    rfl
  have hdecEq : (demucsBuild cfgC6 iwC6).decoder =
      [buildDecBlock cfgC6 iwC6 1, buildDecBlock cfgC6 iwC6 0] := by
    simp only [demucsBuild]
    rw [if_neg (not_not_intro (rfl : cfgC6.rescale = 0) : ¬ cfgC6.rescale ≠ 0)]
    rfl
  have hencLoop : encodeLoop (demucsBuild cfgC6 iwC6).encoder
      (forwardPrep (demucsBuild cfgC6 iwC6) [[(0 : ℝ)]]) = ([y0C6, y1C6], y1C6) := by
    rw [hencEq]
    rfl
  have hPairs : forwardPairs (demucsBuild cfgC6 iwC6) [[(0 : ℝ)]] =
      [(chTime botC6, chTime y1C6), (chTime x1C6, chTime y0C6)] := by
    unfold forwardPairs
    rw [hdecEq, hencLoop]
    rfl
  have hx1t : chTime x1C6 = 4 := chTime_of_shape hx1 (by omega)
  have hy0t : chTime y0C6 = 2 := chTime_of_shape hy0 (by omega)
  have hle : chTime x1C6 ≤ chTime y0C6 :=
    hclaim (chTime x1C6, chTime y0C6)
      (by rw [hPairs]; exact List.mem_cons_of_mem _ (List.mem_cons_self _ _))
  rw [hx1t, hy0t] at hle
  omega

/-!
C2: causality.  The `causal` flag only selects a unidirectional LSTM and
drops the linear projection (demucs.py lines 108-124); the bottleneck is
then a causal map of its time-major input.  The full forward pass is not
causal even with `causal=true`: the strided convolutions read future
samples through their kernels (and normalization and padding are global),
which the counterexample below exhibits.
-/

lemma lstmRun_take (p : LstmLayerP) : ∀ (n : ℕ) (h c : List ℝ)
    (xs ys : List (List ℝ)), xs.take n = ys.take n →
    (lstmRun p h c xs).take n = (lstmRun p h c ys).take n := by
  intro n
  induction n with
  | zero =>
      intro h c xs ys hpre
      rfl
  | succ n ih =>
      intro h c xs ys hpre
      cases xs with
      | nil =>
          cases ys with
          | nil => rfl
          | cons b bs => simp at hpre
      | cons a as =>
          cases ys with
          | nil => simp at hpre
          | cons b bs =>
              simp only [List.take_succ_cons, List.cons.injEq] at hpre
              obtain ⟨rfl, hrest⟩ := hpre
              simp only [lstmRun, List.take_succ_cons, List.cons.injEq]
              exact ⟨trivial, ih _ _ _ _ hrest⟩

lemma lstmLayerF_take (p : LstmLayerP) (n : ℕ) {xs ys : List (List ℝ)}
    (hpre : xs.take n = ys.take n) :
    (lstmLayerF p xs).take n = (lstmLayerF p ys).take n :=
  lstmRun_take p n _ _ xs ys hpre

lemma rnnApply_take (ls : List (LstmLayerP × Option LstmLayerP))
    (huni : ∀ pl ∈ ls, pl.2 = none) :
    ∀ (xs ys : List (List ℝ)) (n : ℕ), xs.take n = ys.take n →
    (rnnApply ⟨ls⟩ xs).take n = (rnnApply ⟨ls⟩ ys).take n := by
  induction ls with
  | nil =>
      intro xs ys n hpre
      exact hpre
  | cons pl rest ih =>
      intro xs ys n hpre
      obtain ⟨pf, po⟩ := pl
      have hpo : po = none := huni (pf, po) (List.mem_cons_self _ _)
      subst hpo
      rw [show rnnApply ⟨(pf, none) :: rest⟩ xs
          = rnnApply ⟨rest⟩ (lstmLayerF pf xs) from rfl,
        show rnnApply ⟨(pf, none) :: rest⟩ ys
          = rnnApply ⟨rest⟩ (lstmLayerF pf ys) from rfl]
      exact ih (fun q hq => huni q (List.mem_cons_of_mem _ hq)) _ _ n
        (lstmLayerF_take pf n hpre)

/-- C2 (amended): with `causal=true` the constructed bottleneck — the only
stage the flag controls — is causal: when two (time-major) bottleneck
inputs agree on the first `t` timesteps, the bottleneck outputs agree on
the first `t` timesteps of every channel.  The claim as stated about the
whole of `forward` fails: the strided convolutions read later samples
through their kernels, so samples at times `≥ t` reach outputs at times
`< t` even with `causal=true` (see the counterexample). -/
theorem bottleneck_causal (cfg : Cfg) (iw : InitW) (M : DemucsM)
    (hM : demucsInit cfg iw = some M) (hc : cfg.causal = true)
    (xs ys : List (List ℝ)) (t : ℕ)
    (hpre : (tslices xs).take t = (tslices ys).take t) (ch : ℕ) :
    ((bottleneckApply (encCh cfg) M.rnn M.lin xs).getD ch []).take t =
      ((bottleneckApply (encCh cfg) M.rnn M.lin ys).getD ch []).take t := by
  obtain rfl := demucsInit_some_eq hM
  have hlay : (demucsBuild cfg iw).rnn.layers =
      [(mkLstmLayer cfg (iw.lstm 0 false), none),
        (mkLstmLayer cfg (iw.lstm 1 false), none)] := by
    simp [demucsBuild, hc]
  have huni : ∀ pl ∈ (demucsBuild cfg iw).rnn.layers, pl.2 = none := by
    intro pl hpl
    rw [hlay] at hpl
    rcases List.mem_cons.mp hpl with rfl | hpl
    · rfl
    · rw [List.mem_singleton] at hpl
      subst hpl
      rfl
  have hlin : (demucsBuild cfg iw).lin = none := by
    simp [demucsBuild, hc]
  have hmapid : ∀ hs : List (List ℝ), hs.map (linApply none) = hs := by
    intro hs
    induction hs with
    | nil => rfl
    | cons a as ih =>
        rw [List.map_cons, ih]
        rfl
  have htake : (rnnApply (demucsBuild cfg iw).rnn (tslices xs)).take t
      = (rnnApply (demucsBuild cfg iw).rnn (tslices ys)).take t :=
    rnnApply_take (demucsBuild cfg iw).rnn.layers huni (tslices xs) (tslices ys)
      t hpre
  unfold bottleneckApply
  rw [hlin, hmapid, hmapid]
  unfold fromTslices
  by_cases hch : ch < encCh cfg
  · rw [List.getD_eq_getElem _ _ (by simpa using hch),
      List.getD_eq_getElem _ _ (by simpa using hch)]
    rw [List.getElem_map, List.getElem_map, List.getElem_range]
    rw [← List.map_take, ← List.map_take, htake]
  · rw [List.getD_eq_default _ _ (by simpa using hch),
      List.getD_eq_default _ _ (by simpa using hch)]

/-- Witness for the amended C2: two bottleneck inputs that agree at the
first timestep and differ at the second give outputs agreeing at the
first timestep. -/
theorem bottleneck_causal_witness :
    cfgW8.causal = true ∧
      ((bottleneckApply (encCh cfgW8) (demucsBuild cfgW8 iwW1).rnn
          (demucsBuild cfgW8 iwW1).lin [[(0 : ℝ), 1]]).getD 0 []).take 1 =
        ((bottleneckApply (encCh cfgW8) (demucsBuild cfgW8 iwW1).rnn
          (demucsBuild cfgW8 iwW1).lin [[(0 : ℝ), 2]]).getD 0 []).take 1 := by
  refine ⟨rfl, ?_⟩
  exact bottleneck_causal cfgW8 iwW1 (demucsBuild cfgW8 iwW1)
    (by unfold demucsInit; rw [if_pos]; exact Or.inl rfl) rfl
    [[(0 : ℝ), 1]] [[(0 : ℝ), 2]] 1 rfl 0

lemma sigmoid_zero : sigmoid 0 = 1 / 2 := by
  unfold sigmoid
  rw [neg_zero, Real.exp_zero]
  norm_num

lemma encCh_cfg2 : encCh cfg2 = 1 := by
  rw [encCh_eq cfg2 (by decide)]
  show natCh cfg2 0 = 1
  rw [natCh_growth_one cfg2 rfl]
  decide

lemma lstmCell_zero (x : ℝ) : lstmCell lstmZ [0] [0] [x] = ([0], [0]) := by
  unfold lstmCell
  simp [lstmZ, matvec, dot, vadd, optAdd, Real.tanh_zero]

lemma lstmLayerF_zero (u v : ℝ) : lstmLayerF lstmZ [[u], [v]] = [[0], [0]] := by
  unfold lstmLayerF
  rw [show List.replicate lstmZ.hidden (0 : ℝ) = [0] from rfl]
  simp only [lstmRun, lstmCell_zero]

lemma mkLstmLayer_cfg2 (k : ℕ) : mkLstmLayer cfg2 (iw2.lstm k false) = lstmZ := by
  unfold mkLstmLayer lstmZ
  rw [encCh_cfg2]
  rfl

lemma rnn_cfg2 : (demucsBuild cfg2 iw2).rnn = { layers := [(lstmZ, none), (lstmZ, none)] } := by
  show ({ layers := [(mkLstmLayer cfg2 (iw2.lstm 0 false), none),
    (mkLstmLayer cfg2 (iw2.lstm 1 false), none)] } : RnnP) = _
  rw [mkLstmLayer_cfg2 0, mkLstmLayer_cfg2 1]

lemma bottleneck_cfg2 (u v : ℝ) :
    bottleneckApply (encCh cfg2) (demucsBuild cfg2 iw2).rnn
      (demucsBuild cfg2 iw2).lin [[u, v]] = [[0, 0]] := by
  unfold bottleneckApply
  rw [show tslices [[u, v]] = [[u], [v]] from by
    simp [tslices, chTime, List.range_succ]]
  rw [rnn_cfg2, show (demucsBuild cfg2 iw2).lin = none from rfl]
  rw [show rnnApply { layers := [(lstmZ, none), (lstmZ, none)] } [[u], [v]]
    = lstmLayerF lstmZ (lstmLayerF lstmZ [[u], [v]]) from rfl]
  rw [lstmLayerF_zero u v, lstmLayerF_zero 0 0, encCh_cfg2]
  rfl

lemma conv1d_shift (P : ConvP) (hw : P.weight = [[[0, 1]]]) (hb : P.bias = some [0])
    (hk : P.kernel = 2) (hs : P.stride = 1) (hp : P.padding = 0) (x0 x1 x2 : ℝ) :
    conv1d P [[x0, x1, x2]] = [[x1, x2]] := by
  unfold conv1d
  rw [hw, hb, hk, hs, hp]
  simp [padChans, chTime, convLen, window, dot, biasAt, List.range_succ]

lemma conv1d_gate (P : ConvP) (hw : P.weight = [[[1]], [[0]]])
    (hb : P.bias = some [0, 0]) (hk : P.kernel = 1) (hs : P.stride = 1)
    (hp : P.padding = 0) (u v : ℝ) :
    conv1d P [[u, v]] = [[u, v], [0, 0]] := by
  unfold conv1d
  rw [hw, hb, hk, hs, hp]
  simp [padChans, chTime, convLen, window, dot, biasAt, List.range_succ]

lemma gluC_gate (u v : ℝ) : gluC [[u, v], [0, 0]] = [[u / 2, v / 2]] := by
  unfold gluC
  simp [sigmoid_zero]
  constructor <;> ring

lemma convT1d_gate (P : ConvP) (hw : P.weight = [[[1, 0]]]) (hb : P.bias = some [0])
    (hk : P.kernel = 2) (hs : P.stride = 1) (u v : ℝ) :
    convT1d P [[u, v]] = [[u, v, 0]] := by
  unfold convT1d
  rw [hw, hb, hk, hs]
  simp [chTime, biasAt, List.range_succ]

lemma encBlock_cfg2 (b : ℝ) :
    encBlockApply (buildEncBlock cfg2 iw2 0) [[(0 : ℝ), b, 0]] = [[b / 2, 0 / 2]] := by
  unfold encBlockApply
  rw [show (buildEncBlock cfg2 iw2 0).useRelu = false from rfl]
  rw [if_neg (by simp)]
  rw [conv1d_shift (buildEncBlock cfg2 iw2 0).conv rfl rfl rfl rfl rfl 0 b 0]
  rw [conv1d_gate (buildEncBlock cfg2 iw2 0).convGlu rfl rfl rfl rfl rfl b 0]
  exact gluC_gate b 0

lemma addTrim_cfg2 (u v : ℝ) : addTrim [[(0 : ℝ), 0]] [[u, v]] = [[u, v]] := by
  unfold addTrim
  simp [chTime]

lemma decBlock_cfg2 (u v : ℝ) :
    decBlockApply (buildDecBlock cfg2 iw2 0) [[u, v]] = [[u / 2, v / 2, 0]] := by
  unfold decBlockApply
  rw [show (buildDecBlock cfg2 iw2 0).useRelu = false from rfl]
  rw [conv1d_gate (buildDecBlock cfg2 iw2 0).convGlu rfl rfl rfl rfl rfl u v]
  rw [gluC_gate u v]
  rw [convT1d_gate (buildDecBlock cfg2 iw2 0).deconv rfl rfl rfl rfl (u / 2) (v / 2)]
  rw [if_neg (by simp)]

lemma mixdown_cfg2 (b : ℝ) : mixdown [[(0 : ℝ), b, 0]] = [[0, b, 0]] := by
  unfold mixdown vsum
  norm_num

lemma prep_cfg2 (b : ℝ) :
    forwardPrep (demucsBuild cfg2 iw2) [[(0 : ℝ), b, 0]] = [[0, b, 0]] := by
  show resampleUp cfg2.resample
    ((normSig cfg2 (mixdown [[(0 : ℝ), b, 0]])).map
      (padTo (validLength cfg2 (chTime (mixdown [[(0 : ℝ), b, 0]]) : ℤ)))) = _
  rw [mixdown_cfg2 b]
  rw [show ((chTime [[(0 : ℝ), b, 0]] : ℕ) : ℤ) = (3 : ℤ) from rfl,
    show validLength cfg2 (3 : ℤ) = 3 from by decide]
  rw [show normSig cfg2 [[(0 : ℝ), b, 0]] = [[0, b, 0]] from by
    unfold normSig; rw [if_neg (by decide)]]
  show ([[(0 : ℝ), b, 0]]).map (padTo 3) = [[0, b, 0]]
  unfold padTo
  norm_num

lemma forwardEx_cfg2 (b : ℝ) :
    forwardEx (demucsBuild cfg2 iw2) [[(0 : ℝ), b, 0]] = [[b / 2 / 2, 0 / 2 / 2, 0]] := by
  have hcore : forwardCore (demucsBuild cfg2 iw2) [[(0 : ℝ), b, 0]]
      = [[b / 2 / 2, 0 / 2 / 2, 0]] := by
    show decodeLoop (demucsBuild cfg2 iw2).decoder
      (encodeLoop (demucsBuild cfg2 iw2).encoder
        (forwardPrep (demucsBuild cfg2 iw2) [[(0 : ℝ), b, 0]])).1.reverse
      (bottleneckApply (encCh cfg2) (demucsBuild cfg2 iw2).rnn
        (demucsBuild cfg2 iw2).lin
        (encodeLoop (demucsBuild cfg2 iw2).encoder
          (forwardPrep (demucsBuild cfg2 iw2) [[(0 : ℝ), b, 0]])).2) = _
    rw [prep_cfg2 b,
      show (demucsBuild cfg2 iw2).encoder = [buildEncBlock cfg2 iw2 0] from by
        simp only [demucsBuild]
        rw [if_neg (not_not_intro (rfl : cfg2.rescale = 0) : ¬ cfg2.rescale ≠ 0)]
        rfl,
      show (demucsBuild cfg2 iw2).decoder = [buildDecBlock cfg2 iw2 0] from by
        simp only [demucsBuild]
        rw [if_neg (not_not_intro (rfl : cfg2.rescale = 0) : ¬ cfg2.rescale ≠ 0)]
        rfl]
    rw [show encodeLoop [buildEncBlock cfg2 iw2 0] [[(0 : ℝ), b, 0]]
      = ([encBlockApply (buildEncBlock cfg2 iw2 0) [[(0 : ℝ), b, 0]]],
          encBlockApply (buildEncBlock cfg2 iw2 0) [[(0 : ℝ), b, 0]]) from rfl]
    rw [encBlock_cfg2 b]
    show decBlockApply (buildDecBlock cfg2 iw2 0)
      (addTrim (bottleneckApply (encCh cfg2) (demucsBuild cfg2 iw2).rnn
        (demucsBuild cfg2 iw2).lin [[b / 2, 0 / 2]]) [[b / 2, 0 / 2]]) = _
    rw [bottleneck_cfg2 (b / 2) (0 / 2), addTrim_cfg2 (b / 2) (0 / 2),
      decBlock_cfg2 (b / 2) (0 / 2)]
  show (resampleDown cfg2.resample
      (forwardCore (demucsBuild cfg2 iw2) [[(0 : ℝ), b, 0]])).map
    (fun c => (c.take (chTime (mixdown [[(0 : ℝ), b, 0]]))).map
      (fun a => normStd cfg2 (mixdown [[(0 : ℝ), b, 0]]) * a)) = _
  rw [hcore, mixdown_cfg2 b,
    show normStd cfg2 [[(0 : ℝ), b, 0]] = 1 from by
      unfold normStd; rw [if_neg (by decide)]]
  show ([[b / 2 / 2, 0 / 2 / 2, 0]]).map
    (fun c => (c.take 3).map (fun a => (1 : ℝ) * a)) = _
  norm_num

/-- C2 counterexample: with `causal = true`, the inputs `[0, 4, 0]` and
`[0, 0, 0]` agree on every sample strictly before `t = 1`, yet the
outputs of `forward` already differ at time 0 (1 versus 0): the encoder
conv kernel `[0, 1]` reads the sample at time 1 into the frame at time 0,
so `forward` is not causal in the claimed sample-level sense. -/
theorem bottleneck_causal_cfg2_counterexample :
    [(0 : ℝ), 4, 0].take 1 = [(0 : ℝ), 0, 0].take 1 ∧
      ¬ ((((forward (demucsBuild cfg2 iw2) [[[(0 : ℝ), 4, 0]]]).headD []).headD
          []).take 1 =
        (((forward (demucsBuild cfg2 iw2) [[[(0 : ℝ), 0, 0]]]).headD []).headD
          []).take 1) := by
  constructor
  · rfl
  · rw [show forward (demucsBuild cfg2 iw2) [[[(0 : ℝ), 4, 0]]]
      = [forwardEx (demucsBuild cfg2 iw2) [[(0 : ℝ), 4, 0]]] from rfl]
    rw [show forward (demucsBuild cfg2 iw2) [[[(0 : ℝ), 0, 0]]]
      = [forwardEx (demucsBuild cfg2 iw2) [[(0 : ℝ), 0, 0]]] from rfl]
    rw [forwardEx_cfg2 4, forwardEx_cfg2 0]
    norm_num

lemma vadd_map_smul (k : ℝ) : ∀ (a b : List ℝ),
    List.zipWith (· + ·) (a.map (fun x => k * x)) (b.map (fun x => k * x))
      = (List.zipWith (· + ·) a b).map (fun x => k * x)
  | [], _ => by simp
  | _ :: _, [] => by simp
  | x :: xs, y :: ys => by
      rw [List.map_cons, List.map_cons, List.zipWith_cons_cons,
        List.zipWith_cons_cons, List.map_cons, vadd_map_smul k xs ys, mul_add]

lemma vsum_map_smul (k : ℝ) : ∀ xs : List (List ℝ),
    vsum (xs.map (fun c => c.map (fun a => k * a)))
      = (vsum xs).map (fun a => k * a)
  | [] => rfl
  | [c] => rfl
  | c :: c' :: cs => by
      rw [List.map_cons, List.map_cons]
      show vadd (c.map (fun a => k * a))
        (vsum ((c' :: cs).map (fun c => c.map (fun a => k * a)))) = _
      rw [vsum_map_smul k (c' :: cs)]
      show List.zipWith (· + ·) (c.map (fun a => k * a))
        ((vsum (c' :: cs)).map (fun a => k * a))
        = (List.zipWith (· + ·) c (vsum (c' :: cs))).map (fun a => k * a)
      exact vadd_map_smul k c (vsum (c' :: cs))

lemma mixdown_scale (k : ℝ) (xs : List (List ℝ)) :
    mixdown (xs.map (fun c => c.map (fun a => k * a)))
      = (mixdown xs).map (fun c => c.map (fun a => k * a)) := by
  unfold mixdown
  rw [vsum_map_smul k xs, List.length_map, List.map_cons, List.map_nil,
    List.map_map, List.map_map]
  apply congrArg (fun c => [c])
  apply List.map_congr_left
  intro a _
  show k * a / (xs.length : ℝ) = k * (a / (xs.length : ℝ))
  ring

lemma chTime_map_map (f : ℝ → ℝ) (ys : List (List ℝ)) :
    chTime (ys.map (fun c => c.map f)) = chTime ys := by
  cases ys with
  | nil => rfl
  | cons a as =>
      show (a.map f).length = a.length
      rw [List.length_map]

lemma headD_map_map (f : ℝ → ℝ) (ys : List (List ℝ)) :
    (ys.map (fun c => c.map f)).headD [] = (ys.headD []).map f := by
  cases ys with
  | nil => rfl
  | cons a as => rfl

lemma sum_sq_smul (k m : ℝ) : ∀ c : List ℝ,
    (c.map (fun a => (k * a - k * m) ^ 2)).sum
      = k ^ 2 * (c.map (fun a => (a - m) ^ 2)).sum
  | [] => by simp
  | a :: as => by
      rw [List.map_cons, List.sum_cons, List.map_cons, List.sum_cons,
        sum_sq_smul k m as]
      ring

lemma stdDev_scale (k : ℝ) (hk : 0 ≤ k) (c : List ℝ) :
    stdDev (c.map (fun a => k * a)) = k * stdDev c := by
  have hsum : (c.map (fun a => k * a)).sum = k * c.sum := by
    induction c with
    | nil => simp
    | cons a as ih =>
        rw [List.map_cons, List.sum_cons, List.sum_cons, ih]
        ring
  show Real.sqrt ((((c.map (fun a => k * a)).map
      (fun a => (a - (c.map (fun a => k * a)).sum /
        (((c.map (fun a => k * a)).length : ℕ) : ℝ)) ^ 2)).sum)
      / ((((c.map (fun a => k * a)).length : ℕ) : ℝ) - 1))
    = k * Real.sqrt (((c.map (fun a => (a - c.sum / ((c.length : ℕ) : ℝ)) ^ 2)).sum)
      / (((c.length : ℕ) : ℝ) - 1))
  rw [List.length_map, List.map_map, hsum]
  have hpt : c.map ((fun a => (a - k * c.sum / ((c.length : ℕ) : ℝ)) ^ 2) ∘
      fun a => k * a)
      = c.map (fun a => (k * a - k * (c.sum / ((c.length : ℕ) : ℝ))) ^ 2) := by
    apply List.map_congr_left
    intro a _
    show (k * a - k * c.sum / ((c.length : ℕ) : ℝ)) ^ 2 = _
    rw [mul_div_assoc]
  rw [hpt, sum_sq_smul k (c.sum / ((c.length : ℕ) : ℝ)) c, mul_div_assoc,
    Real.sqrt_mul (by positivity) _, Real.sqrt_sq hk]

lemma map_smul_take (k s : ℝ) (T : ℕ) (zs : List (List ℝ)) :
    zs.map (fun c => (c.take T).map (fun a => k * s * a))
      = (zs.map (fun c => (c.take T).map (fun a => s * a))).map
          (fun c => c.map (fun a => k * a)) := by
  rw [List.map_map]
  apply List.map_congr_left
  intro c _
  show (c.take T).map (fun a => k * s * a)
    = ((c.take T).map (fun a => s * a)).map (fun a => k * a)
  rw [List.map_map]
  apply List.map_congr_left
  intro a _
  show k * s * a = k * (s * a)
  ring

/-- C7 (amended): for the spec's guard-free normalization, `forward` is
exactly positively homogeneous: scaling the whole input by `k > 0` scales
the output by `k`, because division by the standard deviation removes the
scale and the final multiplication restores it.  For the code as written,
with the `1e-3 + std` denominator of demucs.py line 305, the property
fails exactly and beyond numerical tolerance (see the counterexample). -/
theorem forward_scale_homogeneous (M : DemucsM) (k : ℝ) (hk : 0 < k)
    (ex0 : List (List ℝ)) :
    forwardExSpecNorm M (ex0.map (fun c => c.map (fun a => k * a))) =
      (forwardExSpecNorm M ex0).map (fun c => c.map (fun a => k * a)) := by
  unfold forwardExSpecNorm
  rw [mixdown_scale k ex0, chTime_map_map, headD_map_map,
    stdDev_scale k (le_of_lt hk)]
  have hnorm : ((mixdown ex0).map (fun c => c.map (fun a => k * a))).map
      (fun c => c.map (fun a => a / stdDev c))
      = (mixdown ex0).map (fun c => c.map (fun a => a / stdDev c)) := by
    rw [List.map_map]
    apply List.map_congr_left
    intro c _
    show (c.map (fun a => k * a)).map
      (fun a => a / stdDev (c.map (fun a => k * a))) = _
    rw [stdDev_scale k (le_of_lt hk) c, List.map_map]
    apply List.map_congr_left
    intro a _
    show k * a / (k * stdDev c) = a / stdDev c
    exact mul_div_mul_left a (stdDev c) (ne_of_gt hk)
  rw [hnorm]
  exact map_smul_take k (stdDev ((mixdown ex0).headD []))
    (chTime (mixdown ex0)) _

/-- Witness for the amended C7 at a concrete model, scale and input. -/
theorem forward_scale_homogeneous_witness :
    (0 : ℝ) < 2 ∧
      forwardExSpecNorm (demucsBuild cfgW8 iwW1)
          ([[(1 : ℝ), 0]].map (fun c => c.map (fun a => 2 * a))) =
        (forwardExSpecNorm (demucsBuild cfgW8 iwW1) [[(1 : ℝ), 0]]).map
          (fun c => c.map (fun a => 2 * a)) := by
  refine ⟨by norm_num, ?_⟩
  exact forward_scale_homogeneous (demucsBuild cfgW8 iwW1) 2 (by norm_num)
    [[(1 : ℝ), 0]]

lemma encCh_cfg7 : encCh cfg7 = 1 := by
  rw [encCh_eq cfg7 (by decide)]
  show natCh cfg7 0 = 1
  rw [natCh_growth_one cfg7 rfl]
  decide

lemma mkLstmLayer_cfg7 (k : ℕ) : mkLstmLayer cfg7 (iw2.lstm k false) = lstmZ := by
  unfold mkLstmLayer lstmZ
  rw [encCh_cfg7]
  rfl

lemma rnn_cfg7 : (demucsBuild cfg7 iw2).rnn
    = { layers := [(lstmZ, none), (lstmZ, none)] } := by
  show ({ layers := [(mkLstmLayer cfg7 (iw2.lstm 0 false), none),
    (mkLstmLayer cfg7 (iw2.lstm 1 false), none)] } : RnnP) = _
  rw [mkLstmLayer_cfg7 0, mkLstmLayer_cfg7 1]

lemma bottleneck_cfg7 (u v : ℝ) :
    bottleneckApply (encCh cfg7) (demucsBuild cfg7 iw2).rnn
      (demucsBuild cfg7 iw2).lin [[u, v]] = [[0, 0]] := by
  unfold bottleneckApply
  rw [show tslices [[u, v]] = [[u], [v]] from by
    simp [tslices, chTime, List.range_succ]]
  rw [rnn_cfg7, show (demucsBuild cfg7 iw2).lin = none from rfl]
  rw [show rnnApply { layers := [(lstmZ, none), (lstmZ, none)] } [[u], [v]]
    = lstmLayerF lstmZ (lstmLayerF lstmZ [[u], [v]]) from rfl]
  rw [lstmLayerF_zero u v, lstmLayerF_zero 0 0, encCh_cfg7]
  rfl

lemma stdDev_two_point (b : ℝ) (hb : 0 ≤ b) : stdDev [b, -b, 0] = b := by
  show Real.sqrt ((([(b : ℝ), -b, 0]).map
      (fun a => (a - ([(b : ℝ), -b, 0]).sum / ((([(b : ℝ), -b, 0]).length : ℕ) : ℝ)) ^ 2)).sum
      / (((([(b : ℝ), -b, 0]).length : ℕ) : ℝ) - 1)) = b
  have h1 : (([(b : ℝ), -b, 0]).map
      (fun a => (a - ([(b : ℝ), -b, 0]).sum / ((([(b : ℝ), -b, 0]).length : ℕ) : ℝ)) ^ 2)).sum
      / (((([(b : ℝ), -b, 0]).length : ℕ) : ℝ) - 1) = b ^ 2 := by
    norm_num
  rw [h1, Real.sqrt_sq hb]

lemma normSig_cfg7 (b : ℝ) (hb : 0 ≤ b) :
    normSig cfg7 [[b, -b, 0]] =
      [[b / (1 / 1000 + b), -b / (1 / 1000 + b), 0 / (1 / 1000 + b)]] := by
  unfold normSig
  rw [if_pos (by decide : cfg7.normalize = true)]
  show [([(b : ℝ), -b, 0]).map (fun a => a / (1 / 1000 + stdDev [b, -b, 0]))] = _
  rw [stdDev_two_point b hb]
  rfl

lemma mixdown_single (x y z : ℝ) : mixdown [[x, y, z]] = [[x, y, z]] := by
  unfold mixdown vsum
  norm_num

lemma prep_cfg7 (b : ℝ) (hb : 0 ≤ b) :
    forwardPrep (demucsBuild cfg7 iw2) [[b, -b, 0]] =
      [[b / (1 / 1000 + b), -b / (1 / 1000 + b), 0 / (1 / 1000 + b)]] := by
  show resampleUp cfg7.resample
    ((normSig cfg7 (mixdown [[b, -b, 0]])).map
      (padTo (validLength cfg7 (chTime (mixdown [[b, -b, 0]]) : ℤ)))) = _
  rw [mixdown_single b (-b) 0]
  rw [show ((chTime [[(b : ℝ), -b, 0]] : ℕ) : ℤ) = (3 : ℤ) from rfl,
    show validLength cfg7 (3 : ℤ) = 3 from by decide]
  rw [normSig_cfg7 b hb]
  show ([[b / (1 / 1000 + b), -b / (1 / 1000 + b), (0 : ℝ) / (1 / 1000 + b)]]).map
    (padTo 3) = _
  unfold padTo
  norm_num

lemma encBlock_cfg7 (x0 x1 x2 : ℝ) :
    encBlockApply (buildEncBlock cfg7 iw2 0) [[x0, x1, x2]] = [[x1 / 2, x2 / 2]] := by
  unfold encBlockApply
  rw [show (buildEncBlock cfg7 iw2 0).useRelu = false from rfl]
  rw [if_neg (by simp)]
  rw [conv1d_shift (buildEncBlock cfg7 iw2 0).conv rfl rfl rfl rfl rfl x0 x1 x2]
  rw [conv1d_gate (buildEncBlock cfg7 iw2 0).convGlu rfl rfl rfl rfl rfl x1 x2]
  exact gluC_gate x1 x2

lemma decBlock_cfg7 (u v : ℝ) :
    decBlockApply (buildDecBlock cfg7 iw2 0) [[u, v]] = [[u / 2, v / 2, 0]] := by
  unfold decBlockApply
  rw [show (buildDecBlock cfg7 iw2 0).useRelu = false from rfl]
  rw [conv1d_gate (buildDecBlock cfg7 iw2 0).convGlu rfl rfl rfl rfl rfl u v]
  rw [gluC_gate u v]
  rw [convT1d_gate (buildDecBlock cfg7 iw2 0).deconv rfl rfl rfl rfl (u / 2) (v / 2)]
  rw [if_neg (by simp)]

lemma forwardEx_cfg7 (b : ℝ) (hb : 0 ≤ b) :
    forwardEx (demucsBuild cfg7 iw2) [[b, -b, 0]] =
      [[b * (-b / (1 / 1000 + b) / 2 / 2), b * (0 / (1 / 1000 + b) / 2 / 2),
        b * 0]] := by
  have hcore : forwardCore (demucsBuild cfg7 iw2) [[b, -b, 0]]
      = [[-b / (1 / 1000 + b) / 2 / 2, 0 / (1 / 1000 + b) / 2 / 2, 0]] := by
    show decodeLoop (demucsBuild cfg7 iw2).decoder
      (encodeLoop (demucsBuild cfg7 iw2).encoder
        (forwardPrep (demucsBuild cfg7 iw2) [[b, -b, 0]])).1.reverse
      (bottleneckApply (encCh cfg7) (demucsBuild cfg7 iw2).rnn
        (demucsBuild cfg7 iw2).lin
        (encodeLoop (demucsBuild cfg7 iw2).encoder
          (forwardPrep (demucsBuild cfg7 iw2) [[b, -b, 0]])).2) = _
    rw [prep_cfg7 b hb,
      show (demucsBuild cfg7 iw2).encoder = [buildEncBlock cfg7 iw2 0] from by
        simp only [demucsBuild]
        rw [if_neg (not_not_intro (rfl : cfg7.rescale = 0) : ¬ cfg7.rescale ≠ 0)]
        rfl,
      show (demucsBuild cfg7 iw2).decoder = [buildDecBlock cfg7 iw2 0] from by
        simp only [demucsBuild]
        rw [if_neg (not_not_intro (rfl : cfg7.rescale = 0) : ¬ cfg7.rescale ≠ 0)]
        rfl]
    rw [show encodeLoop [buildEncBlock cfg7 iw2 0]
        [[b / (1 / 1000 + b), -b / (1 / 1000 + b), 0 / (1 / 1000 + b)]]
      = ([encBlockApply (buildEncBlock cfg7 iw2 0)
            [[b / (1 / 1000 + b), -b / (1 / 1000 + b), 0 / (1 / 1000 + b)]]],
          encBlockApply (buildEncBlock cfg7 iw2 0)
            [[b / (1 / 1000 + b), -b / (1 / 1000 + b), 0 / (1 / 1000 + b)]]) from rfl]
    rw [encBlock_cfg7 (b / (1 / 1000 + b)) (-b / (1 / 1000 + b)) (0 / (1 / 1000 + b))]
    show decBlockApply (buildDecBlock cfg7 iw2 0)
      (addTrim (bottleneckApply (encCh cfg7) (demucsBuild cfg7 iw2).rnn
        (demucsBuild cfg7 iw2).lin
        [[-b / (1 / 1000 + b) / 2, 0 / (1 / 1000 + b) / 2]])
        [[-b / (1 / 1000 + b) / 2, 0 / (1 / 1000 + b) / 2]]) = _
    rw [bottleneck_cfg7 (-b / (1 / 1000 + b) / 2) (0 / (1 / 1000 + b) / 2),
      addTrim_cfg2 (-b / (1 / 1000 + b) / 2) (0 / (1 / 1000 + b) / 2),
      decBlock_cfg7 (-b / (1 / 1000 + b) / 2) (0 / (1 / 1000 + b) / 2)]
  show (resampleDown cfg7.resample
      (forwardCore (demucsBuild cfg7 iw2) [[b, -b, 0]])).map
    (fun c => (c.take (chTime (mixdown [[b, -b, 0]]))).map
      (fun a => normStd cfg7 (mixdown [[b, -b, 0]]) * a)) = _
  rw [hcore, mixdown_single b (-b) 0,
    show normStd cfg7 [[b, -b, 0]] = stdDev [b, -b, 0] from by
      unfold normStd; rw [if_pos (by decide : cfg7.normalize = true)]; rfl,
    stdDev_two_point b hb]
  show ([[-b / (1 / 1000 + b) / 2 / 2, 0 / (1 / 1000 + b) / 2 / 2, (0 : ℝ)]]).map
    (fun c => (c.take 3).map (fun a => b * a)) = _
  rfl

/-- C7 counterexample: scaling the input `[1/1000, -1/1000, 0]` by
`k = 1000` does not scale the output by 1000, and the mismatch is exact
and far beyond floating-point tolerance (first output sample `-250/1001 ≈
-0.2497` versus `-1/8 = -0.125`): the `1e-3` additive guard in the
normalization denominator is not divided out for inputs whose scale is
not far above `1e-3`. -/
theorem forward_scale_homogeneous_cfg7_counterexample :
    ¬ (forward (demucsBuild cfg7 iw2) [[[(1 : ℝ), -1, 0]]]
      = (forward (demucsBuild cfg7 iw2) [[[(1 / 1000 : ℝ), -(1 / 1000), 0]]]).map
          (fun out => out.map (fun c => c.map (fun a => 1000 * a)))) := by
  intro hcontra
  rw [show forward (demucsBuild cfg7 iw2) [[[(1 : ℝ), -1, 0]]]
      = [forwardEx (demucsBuild cfg7 iw2) [[(1 : ℝ), -1, 0]]] from rfl,
    show forward (demucsBuild cfg7 iw2) [[[(1 / 1000 : ℝ), -(1 / 1000), 0]]]
      = [forwardEx (demucsBuild cfg7 iw2) [[(1 / 1000 : ℝ), -(1 / 1000), 0]]]
      from rfl,
    forwardEx_cfg7 1 (by norm_num), forwardEx_cfg7 (1 / 1000) (by norm_num)]
    at hcontra
  norm_num at hcontra
